import Mathlib

/-!
Shallow embedding of the ups-mqtt daemon (github.com/sweeney/ups-mqtt).

Numbers: Go float64 values are modelled as exact rationals (ℚ).  Every
float64 is a dyadic rational, so every value the program manipulates has a
terminating decimal expansion; `parseFloat` is modelled as exact decimal
parsing (sign, digits, optional fraction, optional exponent) and
`formatFloat` (strconv.FormatFloat v 'f' -1 64, the shortest round-trip
rendering) as the minimal exact decimal rendering.  IEEE rounding of
parsed literals and overflow to infinity are not modelled.

Maps: Go's `map[string]string` is modelled as an association list
(`Snapshot`); iteration order inside one publish section is the list
order (Go map iteration order is unspecified), and `encoding/json`
marshals maps with sorted keys, which the embedding reproduces.

Effects: MQTT publishing and the NUT session are modelled by explicit
oracles (`ok : ℕ → Bool` for the outcome of the n-th publish attempt,
`pollRes : ℕ → Except String (List Variable)` for the n-th poll) and an
explicit `World` log of attempted and delivered messages.
-/

namespace UpsMqtt

/-- Character for a single decimal digit value below ten. -/
def digitChar (k : ℕ) : Char := Char.ofNat (48 + k)

/-- Numeric value of a decimal digit character. -/
def digitVal (c : Char) : ℕ := c.toNat - 48

/-- Decimal digit test, as in Go's number lexer. -/
def isDigitCh (c : Char) : Bool := decide (48 ≤ c.toNat) && decide (c.toNat ≤ 57)

/-- Fuelled helper for natDigitsRev; fuel n + 1 always suffices. -/
def natDigitsRevF : ℕ → ℕ → List Char
  | 0, _ => []
  | fuel + 1, n =>
    if n < 10 then [digitChar n] else digitChar (n % 10) :: natDigitsRevF fuel (n / 10)

/-- Decimal digits of a natural number, least significant first. -/
def natDigitsRev (n : ℕ) : List Char := natDigitsRevF (n + 1) n

/-- Decimal digits of a natural number, most significant first. -/
def natDigitsMSB (n : ℕ) : List Char := (natDigitsRev n).reverse

/-- Value of a most-significant-first digit string. -/
def digitsToNat (l : List Char) : ℕ := l.foldl (fun a c => 10 * a + digitVal c) 0

/-- Fuelled helper for pFactor; fuel n always suffices. -/
def pFactorF : ℕ → ℕ → ℕ → ℕ
  | 0, _, _ => 0
  | fuel + 1, p, n =>
    if 2 ≤ p ∧ 2 ≤ n ∧ n % p = 0 then pFactorF fuel p (n / p) + 1 else 0

/-- Multiplicity of p in n (for n a pure 2-5 product this is exact). -/
def pFactor (p n : ℕ) : ℕ := pFactorF n p n

/-- Go's math.Round: round half away from zero. -/
def goRound (x : ℚ) : ℤ := if 0 ≤ x then ⌊x + 1/2⌋ else -⌊-x + 1/2⌋

/-- The `math.Round(x*100)/100` idiom used throughout internal/metrics. -/
def round2 (x : ℚ) : ℚ := (goRound (x * 100) : ℚ) / 100

/-- Longest digit run at the head of a character list, with the rest. -/
def takeDigits : List Char → List Char × List Char
  | [] => ([], [])
  | c :: t =>
    if isDigitCh c then
      let p := takeDigits t
      (c :: p.1, p.2)
    else ([], c :: t)

/-- Value of an integer part and a fraction part read from decimal digits. -/
def mantVal (ip fp : List Char) : ℚ :=
  (digitsToNat ip : ℚ) + (digitsToNat fp : ℚ) / 10 ^ fp.length

/-- Exponent digits of a float literal; the whole rest must be digits. -/
def readExpDigits (mant : ℚ) (neg : Bool) (cs : List Char) : Option ℚ :=
  let p := takeDigits cs
  if p.1 = [] ∨ p.2 ≠ [] then none
  else some (if neg then mant / 10 ^ digitsToNat p.1 else mant * 10 ^ digitsToNat p.1)

/-- Signed exponent of a float literal after the e/E marker. -/
def readExp (mant : ℚ) : List Char → Option ℚ
  | [] => none
  | c :: t =>
    if c = '+' then readExpDigits mant false t
    else if c = '-' then readExpDigits mant true t
    else readExpDigits mant false (c :: t)

/-- Accept the end of a float literal or an exponent suffix. -/
def finishNum (mant : ℚ) : List Char → Option ℚ
  | [] => some mant
  | c :: t => if c = 'e' ∨ c = 'E' then readExp mant t else none

/-- Continue a float literal after its leading digit run. -/
def afterInt (ip : List Char) : List Char → Option ℚ
  | [] => if ip = [] then none else some (mantVal ip [])
  | c :: t =>
    if c = '.' then
      let f := takeDigits t
      if ip = [] ∧ f.1 = [] then none else finishNum (mantVal ip f.1) f.2
    else if ip = [] then none
    else finishNum (mantVal ip []) (c :: t)

/-- Unsigned part of strconv.ParseFloat on a character list. -/
def parseUnsigned (cs : List Char) : Option ℚ :=
  let p := takeDigits cs
  afterInt p.1 p.2

/-- Model of strconv.ParseFloat (finite decimal forms) on characters. -/
def parseFloatChars : List Char → Option ℚ
  | [] => none
  | c :: t =>
    if c = '+' then parseUnsigned t
    else if c = '-' then Option.map (fun x => -x) (parseUnsigned t)
    else parseUnsigned (c :: t)

/-- Model of internal/metrics parseFloat: empty or unparseable gives none. -/
def parseFloat (s : String) : Option ℚ := parseFloatChars s.data

/-- Fraction digits of a decimal rendering: m padded to width d. -/
def fracChars (d m : ℕ) : List Char :=
  List.replicate (d - (natDigitsMSB m).length) '0' ++ natDigitsMSB m

/-- A rational has a terminating decimal expansion iff its denominator is
a pure product of twos and fives; every Go float64 satisfies this. -/
def TermDec (q : ℚ) : Prop := q.den = 2 ^ pFactor 2 q.den * 5 ^ pFactor 5 q.den

instance (q : ℚ) : Decidable (TermDec q) := by
  unfold TermDec
  infer_instance

/-- Width of the fraction part of the shortest exact decimal rendering:
for a denominator 2^a·5^b this is max a b, the least d with q·10^d
integral. -/
def decExp (q : ℚ) : ℕ := max (pFactor 2 q.den) (pFactor 5 q.den)

/-- The integer q·10^(decExp q), computed as num·(10^d/den). -/
def scaledInt (q : ℚ) : ℤ := q.num * ((10 ^ decExp q / q.den : ℕ) : ℤ)

/-- Characters of the shortest exact decimal rendering of q.  Models
strconv.FormatFloat(v, 'f', -1, 64) from internal/metrics formatFloat:
the scaled integer is printed with decExp q fraction digits; minimality
of decExp gives no trailing zeros and no decimal point on integers.
The final branch is unreachable for float64-representable inputs
(their denominators are powers of two). -/
def floatChars (q : ℚ) : List Char :=
  if q.den = 2 ^ pFactor 2 q.den * 5 ^ pFactor 5 q.den then
    let d := decExp q
    let n := scaledInt q
    let sgn : List Char := if n < 0 then ['-'] else []
    if d = 0 then sgn ++ natDigitsMSB n.natAbs
    else sgn ++ natDigitsMSB (n.natAbs / 10 ^ d) ++ '.' :: fracChars d (n.natAbs % 10 ^ d)
  else ['?']

/-- Model of internal/metrics formatFloat (shortest decimal, 'f', -1). -/
def formatFloat (q : ℚ) : String := String.mk (floatChars q)

/-- Model of strconv.FormatBool. -/
def formatBool (b : Bool) : String := if b then "true" else "false"

/-- A NUT variable snapshot: dotted name to device-native string value. -/
def Snapshot := List (String × String)

/-- Go map read with zero-value default: vars[k] is "" when k is absent. -/
def getVar (vars : Snapshot) (k : String) : String :=
  (List.lookup k vars).getD ""

/-- The fixed status-token dictionary from internal/metrics. -/
def statusTokens : List (String × String) :=
  [("OL", "Online"), ("OB", "On Battery"), ("LB", "Low Battery"),
   ("HB", "High Battery"), ("RB", "Replace Battery"), ("CHRG", "Charging"),
   ("DISCHRG", "Discharging"), ("BYPASS", "Bypass"), ("CAL", "Calibrating"),
   ("OFF", "Offline"), ("OVER", "Overloaded"), ("TRIM", "Trimming"),
   ("BOOST", "Boosting"), ("FSD", "Forced Shutdown")]

/-- Decode one status token; unknown tokens pass through verbatim. -/
def decodeToken (t : String) : String := (List.lookup t statusTokens).getD t

/-- Whitespace test used by strings.Fields (ASCII space classes). -/
def isSpaceCh (c : Char) : Bool :=
  c == ' ' || c == '\t' || c == '\n' || c == '\r' || c == Char.ofNat 11 || c == Char.ofNat 12

/-- Splitter behind the strings.Fields model; acc holds the current word
reversed. -/
def fieldsAux : List Char → List Char → List String
  | [], acc => if acc.isEmpty then [] else [String.mk acc.reverse]
  | c :: t, acc =>
    if isSpaceCh c then
      if acc.isEmpty then fieldsAux t [] else String.mk acc.reverse :: fieldsAux t []
    else fieldsAux t (c :: acc)

/-- Model of strings.Fields: whitespace-separated tokens of s. -/
def fieldsOf (s : String) : List String := fieldsAux s.data []

/-- Model of internal/metrics hasStatusToken. -/
def hasStatusToken (status tok : String) : Bool := (fieldsOf status).contains tok

/-- Derived metrics record from internal/metrics (floats as ℚ). -/
structure Metrics where
  LoadWatts : ℚ
  BatteryRuntimeMins : ℚ
  BatteryRuntimeHours : ℚ
  OnBattery : Bool
  LowBattery : Bool
  StatusDisplay : String
  InputVoltageDeviationPct : ℚ
deriving DecidableEq

/-- Model of computeLoadWatts: round2(load/100*nominal), zero on bad input. -/
def computeLoadWatts (vars : Snapshot) : ℚ :=
  match parseFloat (getVar vars "ups.load") with
  | none => 0
  | some load =>
    match parseFloat (getVar vars "ups.realpower.nominal") with
    | none => 0
    | some nominal => round2 (load / 100 * nominal)

/-- Model of computeBatteryRuntimeMins: round2(runtime/60). -/
def computeBatteryRuntimeMins (vars : Snapshot) : ℚ :=
  match parseFloat (getVar vars "battery.runtime") with
  | none => 0
  | some r => round2 (r / 60)

/-- Model of computeBatteryRuntimeHours: round2(runtime/3600). -/
def computeBatteryRuntimeHours (vars : Snapshot) : ℚ :=
  match parseFloat (getVar vars "battery.runtime") with
  | none => 0
  | some r => round2 (r / 3600)

/-- Model of computeStatusDisplay: tokenize, decode, join with comma. -/
def computeStatusDisplay (vars : Snapshot) : String :=
  let status := getVar vars "ups.status"
  if status = "" then ""
  else String.intercalate ", " ((fieldsOf status).map decodeToken)

/-- Model of computeInputVoltageDeviationPct with its zero-nominal guard. -/
def computeInputVoltageDeviationPct (vars : Snapshot) : ℚ :=
  match parseFloat (getVar vars "input.voltage") with
  | none => 0
  | some voltage =>
    match parseFloat (getVar vars "input.voltage.nominal") with
    | none => 0
    | some nominal =>
      if nominal = 0 then 0 else round2 ((voltage - nominal) / nominal * 100)

/-- Model of metrics.Compute: all seven derived fields. -/
def Compute (vars : Snapshot) : Metrics :=
  { LoadWatts := computeLoadWatts vars
    BatteryRuntimeMins := computeBatteryRuntimeMins vars
    BatteryRuntimeHours := computeBatteryRuntimeHours vars
    OnBattery := hasStatusToken (getVar vars "ups.status") "OB"
    LowBattery := hasStatusToken (getVar vars "ups.status") "LB"
    StatusDisplay := computeStatusDisplay vars
    InputVoltageDeviationPct := computeInputVoltageDeviationPct vars }

/-- Model of (Metrics).AsTopicMap, in source entry order. -/
def AsTopicMap (m : Metrics) : List (String × String) :=
  [("load_watts", formatFloat m.LoadWatts),
   ("battery_runtime_mins", formatFloat m.BatteryRuntimeMins),
   ("battery_runtime_hours", formatFloat m.BatteryRuntimeHours),
   ("on_battery", formatBool m.OnBattery),
   ("low_battery", formatBool m.LowBattery),
   ("status_display", m.StatusDisplay),
   ("input_voltage_deviation_pct", formatFloat m.InputVoltageDeviationPct)]

/-- JSON values produced by encoding/json in this program. -/
inductive Json where
  | str (s : String)
  | num (q : ℚ)
  | bool (b : Bool)
  | obj (fields : List (String × Json))

/-- JSON string escaping (the cases Go escapes that this program can
produce; other control characters never occur in its payloads). -/
def escapeChar (c : Char) : String :=
  if c = '"' then "\\\""
  else if c = '\\' then "\\\\"
  else if c = '\n' then "\\n"
  else if c = '\r' then "\\r"
  else if c = '\t' then "\\t"
  else String.mk [c]

/-- Escape a whole string for a JSON literal. -/
def escapeStr (s : String) : String := String.join (s.data.map escapeChar)

mutual

/-- Render a JSON value the way encoding/json serializes it. -/
def renderJson : Json → String
  | .str s => "\"" ++ escapeStr s ++ "\""
  | .num q => formatFloat q
  | .bool b => formatBool b
  | .obj fs => "\x7b" ++ renderFields fs ++ "\x7d"

/-- Render the comma-separated members of a JSON object. -/
def renderFields : List (String × Json) → String
  | [] => ""
  | kv :: rest =>
    "\"" ++ escapeStr kv.1 ++ "\":" ++ renderJson kv.2 ++
      (if rest.isEmpty then "" else ",") ++ renderFields rest

end

/-- Insert one pair into a key-sorted association list. -/
def keyInsert (kv : String × String) : List (String × String) → List (String × String)
  | [] => [kv]
  | p :: t => if (compare kv.1 p.1).isLE then kv :: p :: t else p :: keyInsert kv t

/-- Sort an association list by key, as encoding/json does for maps. -/
def sortKeys (l : List (String × String)) : List (String × String) :=
  l.foldr keyInsert []

/-- JSON object for a Metrics value, via its JSON tags, in field order. -/
def metricsJson (m : Metrics) : Json :=
  Json.obj
    [("load_watts", .num m.LoadWatts),
     ("battery_runtime_mins", .num m.BatteryRuntimeMins),
     ("battery_runtime_hours", .num m.BatteryRuntimeHours),
     ("on_battery", .bool m.OnBattery),
     ("low_battery", .bool m.LowBattery),
     ("status_display", .str m.StatusDisplay),
     ("input_voltage_deviation_pct", .num m.InputVoltageDeviationPct)]

/-- JSON object marshalled from publisher.StateMessage, in struct field
order; the second field carries the json tag ups_name. -/
def stateJson (ts upsName : String) (vars : Snapshot) (m : Metrics) : Json :=
  Json.obj
    [("timestamp", .str ts),
     ("ups_name", .str upsName),
     ("variables", .obj ((sortKeys vars).map (fun kv => (kv.1, .str kv.2)))),
     ("computed", metricsJson m)]

/-- Names of the top-level members of a JSON object. -/
def topFields : Json → List String
  | .obj fs => fs.map (fun kv => kv.1)
  | _ => []

/-- Member lookup in a JSON object. -/
def jsonField (j : Json) (k : String) : Option Json :=
  match j with
  | .obj fs => List.lookup k fs
  | _ => none

/-- Model of publisher.StateTopic. -/
def StateTopic (root ups : String) : String := root ++ "/" ++ ups ++ "/state"

/-- Model of publisher.FormatOffline at a given timestamp: the payload of
the offline announcement, marshalled from OnlineState in field order. -/
def FormatOffline (ts : String) : String :=
  renderJson (Json.obj [("online", .bool false), ("timestamp", .str ts)])

/-- Model of publisher.Message. -/
structure Message where
  topic : String
  payload : String
  retained : Bool
deriving DecidableEq

/-- Model of publisher.PublishConfig; root is the source TopicPrefix
field (renamed here), upsName the UPSName field. -/
structure PublishConfig where
  root : String
  upsName : String
  retained : Bool

/-- Model of nut.Variable. -/
structure Variable where
  Name : String
  Value : String
deriving DecidableEq

/-- Go map insert: replace the binding of k, appending when absent. -/
def insertVar (m : Snapshot) (k v : String) : Snapshot :=
  (List.filter (fun p => p.1 != k) m) ++ [(k, v)]

/-- Model of nut.VarsToMap: fold the slice into a map. -/
def VarsToMap (vs : List Variable) : Snapshot :=
  vs.foldl (fun m v => insertVar m v.Name v.Value) []

/-- Dots of a variable name become topic-path slashes. -/
def slashName (s : String) : String :=
  String.mk (s.data.map (fun c => if c = '.' then '/' else c))

/-- Raw-variable topic from PublishAll. -/
def varTopic (cfg : PublishConfig) (name : String) : String :=
  cfg.root ++ "/" ++ cfg.upsName ++ "/" ++ slashName name

/-- Computed-metric topic from PublishAll. -/
def computedTopic (cfg : PublishConfig) (name : String) : String :=
  cfg.root ++ "/" ++ cfg.upsName ++ "/computed/" ++ name

/-- The combined-state message built by publisher.publishState. -/
def stateMessage (vars : Snapshot) (m : Metrics) (cfg : PublishConfig) (ts : String) : Message :=
  ⟨StateTopic cfg.root cfg.upsName, renderJson (stateJson ts cfg.upsName vars m), cfg.retained⟩

/-- The full outbound message set of one cycle, in PublishAll order:
raw variables, computed metrics, then the combined state message. -/
def cycleMessages (vars : Snapshot) (m : Metrics) (cfg : PublishConfig) (ts : String) : List Message :=
  vars.map (fun kv => ⟨varTopic cfg kv.1, kv.2, cfg.retained⟩)
    ++ (AsTopicMap m).map (fun kv => ⟨computedTopic cfg kv.1, kv.2, cfg.retained⟩)
    ++ [stateMessage vars m cfg ts]

/-- Observable state of the message bus and the poller: every publish
attempt in order, every delivered message in order, polls so far. -/
structure World where
  attempted : List Message
  published : List Message
  pollCalls : ℕ
deriving DecidableEq

/-- One Publish call: the oracle ok decides the outcome of the n-th
attempt; a failed attempt delivers nothing. -/
def pubAttempt (ok : ℕ → Bool) (w : World) (msg : Message) : World × Bool :=
  let s := ok w.attempted.length
  (⟨w.attempted ++ [msg], if s then w.published ++ [msg] else w.published, w.pollCalls⟩, s)

/-- Publish messages one at a time; the first failure stops the rest.
Models the publish loops of publisher.PublishAll. -/
def pubSeq (ok : ℕ → Bool) (w : World) : List Message → World × Bool
  | [] => (w, true)
  | msg :: rest =>
    let r := pubAttempt ok w msg
    if r.2 then pubSeq ok r.1 rest else (r.1, false)

/-- The retained offline announcement main publishes on the combined
state topic during shutdown. -/
def offMessage (cfg : PublishConfig) (ts : String) : Message :=
  ⟨StateTopic cfg.root cfg.upsName, FormatOffline ts, true⟩

/-- Model of main.doPoll: fetch, compute, publish everything; a fetch
failure publishes nothing, a publish failure surfaces to the caller. -/
def doPollW (pollRes : ℕ → Except String (List Variable)) (cfg : PublishConfig)
    (ts : String) (ok : ℕ → Bool) (w : World) : World × Except String Unit :=
  match pollRes w.pollCalls with
  | .error e => (⟨w.attempted, w.published, w.pollCalls + 1⟩, .error ("polling NUT: " ++ e))
  | .ok vs =>
    let w1 : World := ⟨w.attempted, w.published, w.pollCalls + 1⟩
    let vm := VarsToMap vs
    let r := pubSeq ok w1 (cycleMessages vm (Compute vm) cfg ts)
    (r.1, if r.2 then .ok () else .error "publishing: publish failed")

/-- Model of main's shutdown sequence after the loop stops: one final
best-effort poll cycle, then unconditionally one attempt to publish the
offline announcement. -/
def shutdownSeq (pollRes : ℕ → Except String (List Variable)) (cfg : PublishConfig)
    (tsC tsO : String) (ok : ℕ → Bool) (w : World) : World :=
  let r := doPollW pollRes cfg tsC ok w
  (pubAttempt ok r.1 (offMessage cfg tsO)).1

/-- Outcome of the startup connection routine. -/
inductive ConnectOutcome where
  | connected (attempt : ℕ)
  | cancelled (attempt : ℕ)
  | fuelExhausted
deriving DecidableEq

/-- Trace of the startup connection routine: outcome, the backoff waits
actually slept in order, and the number of connect attempts made. -/
structure ConnectTrace where
  outcome : ConnectOutcome
  waits : List ℕ
  attempts : ℕ
deriving DecidableEq

/-- Model of main.connectNUT's loop: try, on failure select between the
cancellation signal and a backoff sleep, then double and cap the delay.
okc i is the outcome of attempt i; cancel i is whether the cancellation
signal is observed during the wait after attempt i.  fuel is an artifact
of the embedding (the Go loop is unbounded). -/
def connectGo (okc cancel : ℕ → Bool) : ℕ → ℕ → ℕ → ConnectTrace
  | 0, _, _ => ⟨.fuelExhausted, [], 0⟩
  | fuel + 1, i, b =>
    if okc i then ⟨.connected i, [], 1⟩
    else if cancel i then ⟨.cancelled i, [], 1⟩
    else
      let r := connectGo okc cancel fuel (i + 1) (min (2 * b) 60)
      ⟨r.outcome, b :: r.waits, r.attempts + 1⟩

/-- Model of main.connectNUT: attempts start at 0, backoff starts at 1 s. -/
def connectNUT (fuel : ℕ) (okc cancel : ℕ → Bool) : ConnectTrace :=
  connectGo okc cancel fuel 0 1

/-- The doubling-and-capping discipline of the waits slept by
connectNUT, starting from a given current backoff. -/
def BackoffChain : ℕ → List ℕ → Prop
  | _, [] => True
  | b, w :: ws => w = b ∧ BackoffChain (min (2 * b) 60) ws

/-- Failure cases of nut.(*Client).Poll. -/
inductive PollFailure where
  | connectFailed
  | listFailed
  | targetNotFound
  | varsFailed
deriving DecidableEq

/-- Per-call behaviour of the NUT daemon: outcome of a reconnect if one
happens, the target listing (none is a list error), and the variable
retrieval (none is a retrieve error). -/
structure PollInput where
  connectOk : Bool
  listRes : Option (List String)
  varsRes : Option (List Variable)

instance {ε α : Type} [DecidableEq ε] [DecidableEq α] : DecidableEq (Except ε α) := fun a b =>
  match a, b with
  | .error e, .error f => decidable_of_iff (e = f) (by simp)
  | .error _, .ok _ => isFalse (by simp)
  | .ok _, .error _ => isFalse (by simp)
  | .ok x, .ok y => decidable_of_iff (x = y) (by simp)

/-- Result of one Poll: the returned value, the stale flag afterwards,
and how many times connect was called inside this Poll. -/
structure PollOut where
  result : Except PollFailure (List Variable)
  stale : Bool
  connectCalls : ℕ
deriving DecidableEq

/-- The list-locate-retrieve part of nut.(*Client).Poll; on entry here
the connection is never stale (a stale client reconnected first), so a
target-not-found return leaves the connection non-stale. -/
def pollCore (ups : String) (inp : PollInput) (cc : ℕ) : PollOut :=
  match inp.listRes with
  | none => ⟨.error .listFailed, true, cc⟩
  | some names =>
    if ups ∈ names then
      match inp.varsRes with
      | none => ⟨.error .varsFailed, true, cc⟩
      | some vs => ⟨.ok vs, false, cc⟩
    else ⟨.error .targetNotFound, false, cc⟩

/-- Model of nut.(*Client).Poll: a stale client reconnects first
(connect clears the stale flag on success); list or retrieve failures
set the stale flag; lazy reconnect happens only on the next call. -/
def pollStep (ups : String) (inp : PollInput) (stale : Bool) : PollOut :=
  if stale then
    if inp.connectOk then pollCore ups inp 1 else ⟨.error .connectFailed, true, 1⟩
  else pollCore ups inp 0

lemma natDigitsRevF_congr :
    ∀ (n f1 f2 : ℕ), n < f1 → n < f2 → natDigitsRevF f1 n = natDigitsRevF f2 n := by
  intro n
  induction n using Nat.strong_induction_on with
  | _ n ih =>
    intro f1 f2 h1 h2
    rcases f1 with _ | f1
    · omega
    rcases f2 with _ | f2
    · omega
    simp only [natDigitsRevF]
    by_cases h : n < 10
    · simp [h]
    · simp only [h, if_false]
      congr 1
      have hlt : n / 10 < n := Nat.div_lt_self (by omega) (by omega)
      exact ih (n / 10) hlt f1 f2 (by omega) (by omega)
lemma natDigitsRev_eq (n : ℕ) :
    natDigitsRev n
      = if n < 10 then [digitChar n] else digitChar (n % 10) :: natDigitsRev (n / 10) := by
  unfold natDigitsRev
  show natDigitsRevF (n + 1) n = _
  rcases hn : n + 1 with _ | f
  · omega
  simp only [natDigitsRevF]
  by_cases h : n < 10
  · simp [h]
  · simp only [h, if_false]
    congr 1
    have hlt : n / 10 < n := Nat.div_lt_self (by omega) (by omega)
    exact natDigitsRevF_congr (n / 10) f (n / 10 + 1) (by omega) (by omega)
lemma pFactorF_congr :
    ∀ (n f1 f2 p : ℕ), n ≤ f1 → n ≤ f2 → pFactorF f1 p n = pFactorF f2 p n := by
  intro n
  induction n using Nat.strong_induction_on with
  | _ n ih =>
    intro f1 f2 p h1 h2
    rcases f1 with _ | f1
    · have hn : n = 0 := by omega
      subst hn
      rcases f2 with _ | f2
      · rfl
      · simp [pFactorF]
    rcases f2 with _ | f2
    · have hn : n = 0 := by omega
      subst hn
      simp [pFactorF]
    simp only [pFactorF]
    by_cases h : 2 ≤ p ∧ 2 ≤ n ∧ n % p = 0
    · rw [if_pos h, if_pos h]
      have hlt : n / p < n := Nat.div_lt_self (by omega) (by omega)
      exact congrArg (fun x => x + 1) (ih (n / p) hlt f1 f2 p (by omega) (by omega))
    · rw [if_neg h, if_neg h]
lemma pFactor_eq (p n : ℕ) :
    pFactor p n = if 2 ≤ p ∧ 2 ≤ n ∧ n % p = 0 then pFactor p (n / p) + 1 else 0 := by
  by_cases h : 2 ≤ p ∧ 2 ≤ n ∧ n % p = 0
  · rw [if_pos h]
    unfold pFactor
    rcases n with _ | k
    · omega
    rw [show pFactorF (k + 1) p (k + 1)
        = if 2 ≤ p ∧ 2 ≤ k + 1 ∧ (k + 1) % p = 0
          then pFactorF k p ((k + 1) / p) + 1 else 0 from rfl]
    rw [if_pos h]
    have hlt : (k + 1) / p < k + 1 := Nat.div_lt_self (by omega) (by omega)
    exact congrArg (fun x => x + 1)
      (pFactorF_congr ((k + 1) / p) k ((k + 1) / p) p (by omega) le_rfl)
  · rw [if_neg h]
    unfold pFactor
    rcases n with _ | k
    · rfl
    rw [show pFactorF (k + 1) p (k + 1)
        = if 2 ≤ p ∧ 2 ≤ k + 1 ∧ (k + 1) % p = 0
          then pFactorF k p ((k + 1) / p) + 1 else 0 from rfl]
    rw [if_neg h]

lemma parseFloat_empty : parseFloat "" = none := by decide

lemma parseFloat_zeroStr : parseFloat "0" = some 0 := by
  simp +decide [parseFloat, parseFloatChars, parseUnsigned, takeDigits, afterInt, finishNum,
    mantVal, digitsToNat, digitVal, isDigitCh]

lemma parseFloat_230 : parseFloat "230" = some 230 := by
  simp +decide [parseFloat, parseFloatChars, parseUnsigned, takeDigits, afterInt, finishNum,
    mantVal, digitsToNat, digitVal, isDigitCh]

lemma getVar_of_lookup_none {vars : Snapshot} {k : String}
    (h : List.lookup k vars = none) : getVar vars k = "" := by
  simp [getVar, h]

/-- C3: for every snapshot, input_voltage_deviation_pct equals
round2((voltage − nominal) / nominal × 100); it is 0 whenever
input.voltage or input.voltage.nominal is absent or unparseable or the
nominal parses to exactly zero; the guard applies only to zero nominal:
a snapshot with input.voltage = "0" and input.voltage.nominal = "230"
yields −100, not 0. -/
theorem claim_C3_voltage_deviation :
    (∀ (vars : Snapshot) (v n : ℚ),
        parseFloat (getVar vars "input.voltage") = some v →
        parseFloat (getVar vars "input.voltage.nominal") = some n → n ≠ 0 →
        (Compute vars).InputVoltageDeviationPct = round2 ((v - n) / n * 100)) ∧
    (∀ vars : Snapshot, parseFloat (getVar vars "input.voltage") = none →
        (Compute vars).InputVoltageDeviationPct = 0) ∧
    (∀ vars : Snapshot, parseFloat (getVar vars "input.voltage.nominal") = none →
        (Compute vars).InputVoltageDeviationPct = 0) ∧
    (∀ vars : Snapshot, parseFloat (getVar vars "input.voltage.nominal") = some 0 →
        (Compute vars).InputVoltageDeviationPct = 0) ∧
    (∀ vars : Snapshot, getVar vars "input.voltage" = "0" →
        getVar vars "input.voltage.nominal" = "230" →
        (Compute vars).InputVoltageDeviationPct = -100) := by
  refine ⟨?_, ?_, ?_, ?_, ?_⟩
  · intro vars v n hv hn hnz
    simp [Compute, computeInputVoltageDeviationPct, hv, hn, hnz]
  · intro vars h
    simp [Compute, computeInputVoltageDeviationPct, h]
  · intro vars h
    rcases hv : parseFloat (getVar vars "input.voltage") with _ | v <;>
      simp [Compute, computeInputVoltageDeviationPct, hv, h]
  · intro vars h
    rcases hv : parseFloat (getVar vars "input.voltage") with _ | v <;>
      simp [Compute, computeInputVoltageDeviationPct, hv, h]
  · intro vars h1 h2
    show computeInputVoltageDeviationPct vars = -100
    unfold computeInputVoltageDeviationPct
    rw [h1, h2, parseFloat_zeroStr, parseFloat_230]
    norm_num [round2, goRound]

/-- C3 witness: the guard asymmetry at a concrete snapshot. -/
theorem claim_C3_witness :
    (Compute [("input.voltage", "0"), ("input.voltage.nominal", "230")]).InputVoltageDeviationPct
      = -100 :=
  claim_C3_voltage_deviation.2.2.2.2
    [("input.voltage", "0"), ("input.voltage.nominal", "230")] rfl rfl

/-- C7: Compute is a total function of the snapshot; a value string
parses only if non-empty; missing or unparseable inputs yield the zero
value of the affected field, in particular load_watts = 0 when ups.load
or ups.realpower.nominal is absent or unparseable. -/
theorem claim_C7_compute_total_zero_defaults :
    (∀ (s : String) (v : ℚ), parseFloat s = some v → s ≠ "") ∧
    parseFloat "" = none ∧
    (∀ vars : Snapshot, List.lookup "ups.load" vars = none → (Compute vars).LoadWatts = 0) ∧
    (∀ vars : Snapshot, List.lookup "ups.realpower.nominal" vars = none →
        (Compute vars).LoadWatts = 0) ∧
    (∀ vars : Snapshot, parseFloat (getVar vars "ups.load") = none →
        (Compute vars).LoadWatts = 0) ∧
    (∀ vars : Snapshot, parseFloat (getVar vars "ups.realpower.nominal") = none →
        (Compute vars).LoadWatts = 0) ∧
    (∀ vars : Snapshot, parseFloat (getVar vars "battery.runtime") = none →
        (Compute vars).BatteryRuntimeMins = 0 ∧ (Compute vars).BatteryRuntimeHours = 0) ∧
    (∀ vars : Snapshot, getVar vars "ups.status" = "" →
        (Compute vars).OnBattery = false ∧ (Compute vars).LowBattery = false ∧
          (Compute vars).StatusDisplay = "") := by
  have hload : ∀ vars : Snapshot, parseFloat (getVar vars "ups.load") = none →
      (Compute vars).LoadWatts = 0 := by
    intro vars h
    simp [Compute, computeLoadWatts, h]
  have hnom : ∀ vars : Snapshot, parseFloat (getVar vars "ups.realpower.nominal") = none →
      (Compute vars).LoadWatts = 0 := by
    intro vars h
    rcases hv : parseFloat (getVar vars "ups.load") with _ | v <;>
      simp [Compute, computeLoadWatts, hv, h]
  refine ⟨?_, parseFloat_empty, ?_, ?_, hload, hnom, ?_, ?_⟩
  · intro s v h heq
    rw [heq, parseFloat_empty] at h
    cases h
  · intro vars h
    exact hload vars (by rw [getVar_of_lookup_none h, parseFloat_empty])
  · intro vars h
    exact hnom vars (by rw [getVar_of_lookup_none h, parseFloat_empty])
  · intro vars h
    constructor <;> simp [Compute, computeBatteryRuntimeMins, computeBatteryRuntimeHours, h]
  · intro vars h
    refine ⟨?_, ?_, ?_⟩
    · show hasStatusToken (getVar vars "ups.status") "OB" = false
      rw [h]; decide
    · show hasStatusToken (getVar vars "ups.status") "LB" = false
      rw [h]; decide
    · simp [Compute, computeStatusDisplay, h]

/-- C7 witness: a snapshot missing ups.realpower.nominal and holding an
unparseable battery.runtime yields zero for the affected fields. -/
theorem claim_C7_witness :
    (Compute [("ups.load", "8"), ("battery.runtime", "bogus")]).LoadWatts = 0 ∧
    (Compute [("ups.load", "8"), ("battery.runtime", "bogus")]).BatteryRuntimeMins = 0 := by
  refine ⟨claim_C7_compute_total_zero_defaults.2.2.2.1 _ rfl,
    (claim_C7_compute_total_zero_defaults.2.2.2.2.2.2.1 _ (by decide)).1⟩

/-- C8: status_display is the whitespace tokenization of ups.status with
each token decoded through the fixed 14-entry dictionary, unknown tokens
passed through verbatim, joined in order with a comma-space separator;
empty or absent ups.status yields the empty string. -/
theorem claim_C8_status_display :
    (∀ vars : Snapshot,
        computeStatusDisplay vars
          = String.intercalate ", " ((fieldsOf (getVar vars "ups.status")).map decodeToken)) ∧
    statusTokens.length = 14 ∧
    decodeToken "OL" = "Online" ∧ decodeToken "OB" = "On Battery" ∧
    decodeToken "LB" = "Low Battery" ∧ decodeToken "HB" = "High Battery" ∧
    decodeToken "RB" = "Replace Battery" ∧ decodeToken "CHRG" = "Charging" ∧
    decodeToken "DISCHRG" = "Discharging" ∧ decodeToken "BYPASS" = "Bypass" ∧
    decodeToken "CAL" = "Calibrating" ∧ decodeToken "OFF" = "Offline" ∧
    decodeToken "OVER" = "Overloaded" ∧ decodeToken "TRIM" = "Trimming" ∧
    decodeToken "BOOST" = "Boosting" ∧ decodeToken "FSD" = "Forced Shutdown" ∧
    (∀ t : String, List.lookup t statusTokens = none → decodeToken t = t) ∧
    (∀ vars : Snapshot, getVar vars "ups.status" = "" → computeStatusDisplay vars = "") ∧
    computeStatusDisplay [("ups.status", "OB LB XYZ")] = "On Battery, Low Battery, XYZ" := by
  have hmain : ∀ vars : Snapshot,
      computeStatusDisplay vars
        = String.intercalate ", " ((fieldsOf (getVar vars "ups.status")).map decodeToken) := by
    intro vars
    unfold computeStatusDisplay
    by_cases h : getVar vars "ups.status" = ""
    · rw [h]; simp; decide
    · simp [h]
  refine ⟨hmain, rfl, rfl, rfl, rfl, rfl, rfl, rfl, rfl, rfl, rfl, rfl, rfl, rfl, rfl, rfl,
    ?_, ?_, by decide⟩
  · intro t h
    simp [decodeToken, h]
  · intro vars h
    simp [computeStatusDisplay, h]

/-- C8 witness: passthrough of a token outside the dictionary. -/
theorem claim_C8_witness : decodeToken "WEIRD" = "WEIRD" := by
  obtain ⟨-, -, -, -, -, -, -, -, -, -, -, -, -, -, -, -, hunk, -, -⟩ :=
    claim_C8_status_display
  exact hunk "WEIRD" (by decide)

/-- C2 counterexample: the combined-state JSON object has no top-level
field named target_name (the field is named ups_name), so the claim as
stated fails at this concrete input. -/
theorem claim_C2_cex :
    jsonField (stateJson "ts" "myups" [("battery.charge", "100")] (Compute [])) "target_name"
        = none ∧
    topFields (stateJson "ts" "myups" [("battery.charge", "100")] (Compute []))
        ≠ ["timestamp", "target_name", "variables", "computed"] := by
  exact ⟨rfl, by decide⟩

/-- C2 amended: the combined state message is published on the
prefix/target/state topic and its payload is a JSON object with exactly
four top-level fields named timestamp, ups_name, variables and computed,
where variables is the snapshot mapping (keys sorted by encoding/json)
and computed is the 7-field derived-metrics record with the canonical
field names. -/
theorem claim_C2_state_wire_format (ts : String) (vars : Snapshot) (m : Metrics)
    (cfg : PublishConfig) :
    topFields (stateJson ts cfg.upsName vars m)
        = ["timestamp", "ups_name", "variables", "computed"] ∧
    jsonField (stateJson ts cfg.upsName vars m) "timestamp" = some (.str ts) ∧
    jsonField (stateJson ts cfg.upsName vars m) "ups_name" = some (.str cfg.upsName) ∧
    jsonField (stateJson ts cfg.upsName vars m) "variables"
        = some (.obj ((sortKeys vars).map (fun kv => (kv.1, .str kv.2)))) ∧
    jsonField (stateJson ts cfg.upsName vars m) "computed" = some (metricsJson m) ∧
    topFields (metricsJson m)
        = ["load_watts", "battery_runtime_mins", "battery_runtime_hours", "on_battery",
           "low_battery", "status_display", "input_voltage_deviation_pct"] ∧
    (stateMessage vars m cfg ts).topic = StateTopic cfg.root cfg.upsName ∧
    (stateMessage vars m cfg ts).payload = renderJson (stateJson ts cfg.upsName vars m) ∧
    (cycleMessages vars m cfg ts).getLast? = some (stateMessage vars m cfg ts) := by
  refine ⟨rfl, rfl, ?_, ?_, ?_, rfl, rfl, rfl, ?_⟩
  · simp [jsonField, stateJson, List.lookup]
  · simp [jsonField, stateJson, List.lookup]
  · simp [jsonField, stateJson, List.lookup]
  · simp [cycleMessages]

lemma pollCore_connectCalls (ups : String) (inp : PollInput) (cc : ℕ) :
    (pollCore ups inp cc).connectCalls = cc := by
  unfold pollCore
  rcases hl : inp.listRes with _ | names
  · rfl
  · by_cases h : ups ∈ names
    · rcases hv : inp.varsRes with _ | vs <;> simp [h, hv]
    · simp [h]

lemma pollCore_cc_irrelevant (ups : String) (inp : PollInput) (c1 c2 : ℕ) :
    (pollCore ups inp c1).result = (pollCore ups inp c2).result ∧
    (pollCore ups inp c1).stale = (pollCore ups inp c2).stale := by
  unfold pollCore
  rcases inp.listRes with _ | names
  · exact ⟨rfl, rfl⟩
  · by_cases hm : ups ∈ names
    · rcases inp.varsRes with _ | vs <;> simp [hm]
    · simp [hm]

lemma pollCore_listFailed {ups : String} {inp : PollInput} (cc : ℕ)
    (hl : inp.listRes = none) :
    (pollCore ups inp cc).result = .error .listFailed ∧ (pollCore ups inp cc).stale = true := by
  simp [pollCore, hl]

lemma pollCore_varsFailed {ups : String} {inp : PollInput} {names : List String} (cc : ℕ)
    (hl : inp.listRes = some names) (hm : ups ∈ names)
    (hv : inp.varsRes = none) :
    (pollCore ups inp cc).result = .error .varsFailed ∧ (pollCore ups inp cc).stale = true := by
  simp [pollCore, hl, hm, hv]

lemma pollStep_of_core {ups : String} {inp : PollInput} (P : PollOut → Prop) (st : Bool)
    (hok : st = false ∨ inp.connectOk = true)
    (h : ∀ cc, P (pollCore ups inp cc)) : P (pollStep ups inp st) := by
  rcases hok with rfl | hc
  · simpa [pollStep] using h 0
  · simp only [pollStep, hc]
    rcases st with _ | _
    · simpa using h 0
    · simpa using h 1

lemma pollCore_notFound_stale {ups : String} {inp : PollInput} (cc : ℕ)
    (hres : (pollCore ups inp cc).result = .error .targetNotFound) :
    (pollCore ups inp cc).stale = false := by
  unfold pollCore at hres ⊢
  rcases hl : inp.listRes with _ | names <;> simp [hl] at hres ⊢
  by_cases hm : ups ∈ names
  · rcases hv : inp.varsRes with _ | vs <;> simp [hm, hv] at hres
  · simp [hm]

lemma pollStep_notFound_stale {ups : String} {inp : PollInput} {st : Bool}
    (hres : (pollStep ups inp st).result = .error .targetNotFound) :
    (pollStep ups inp st).stale = false := by
  unfold pollStep at hres ⊢
  rcases st with _ | _
  · simp only [Bool.false_eq_true, if_false] at hres ⊢
    exact pollCore_notFound_stale 0 hres
  · simp only [if_true] at hres ⊢
    by_cases hc : inp.connectOk = true <;> simp [hc] at hres ⊢
    exact pollCore_notFound_stale 1 hres

/-- C5: the Source Connector staleness machine: a stale connector first
reconnects inside Poll (connect is called exactly once there and never
on a fresh connector), a failed reconnect returns the connect error and
stays stale, a successful reconnect clears staleness so the fetch
proceeds exactly as a fresh one; a failure at the list or retrieve step
returns the failure and marks the connector stale, so reconnection
happens lazily on the next fetch. -/
theorem claim_C5_stale_state_machine (ups : String) (inp : PollInput) :
    (pollStep ups inp false).connectCalls = 0 ∧
    (pollStep ups inp true).connectCalls = 1 ∧
    (inp.connectOk = false →
        pollStep ups inp true = ⟨.error .connectFailed, true, 1⟩) ∧
    (inp.connectOk = true →
        (pollStep ups inp true).result = (pollStep ups inp false).result ∧
        (pollStep ups inp true).stale = (pollStep ups inp false).stale) ∧
    (∀ st : Bool, inp.listRes = none → (st = false ∨ inp.connectOk = true) →
        (pollStep ups inp st).result = .error .listFailed ∧
        (pollStep ups inp st).stale = true) ∧
    (∀ (st : Bool) (names : List String), inp.listRes = some names →
        ups ∈ names → inp.varsRes = none →
        (st = false ∨ inp.connectOk = true) →
        (pollStep ups inp st).result = .error .varsFailed ∧
        (pollStep ups inp st).stale = true) := by
  refine ⟨by simp [pollStep, pollCore_connectCalls], ?_, ?_, ?_, ?_, ?_⟩
  · by_cases hc : inp.connectOk = true <;>
      simp [pollStep, hc, pollCore_connectCalls]
  · intro hc
    simp [pollStep, hc]
  · intro hc
    simp only [pollStep, hc, if_true]
    exact pollCore_cc_irrelevant ups inp 1 0
  · intro st hl hok
    exact pollStep_of_core
      (fun o => o.result = .error .listFailed ∧ o.stale = true) st hok
      (fun cc => pollCore_listFailed cc hl)
  · intro st names hl hmem hv hok
    exact pollStep_of_core
      (fun o => o.result = .error .varsFailed ∧ o.stale = true) st hok
      (fun cc => pollCore_varsFailed cc hl hmem hv)

/-- C5 witness: a stale connector with a failing reconnect returns the
connect error and stays stale; a fresh one never calls connect. -/
theorem claim_C5_witness :
    pollStep "u" ⟨false, some ["u"], some []⟩ true
        = ⟨.error .connectFailed, true, 1⟩ ∧
    (pollStep "u" ⟨false, some ["u"], some []⟩ false).connectCalls = 0 := by
  have h := claim_C5_stale_state_machine "u" ⟨false, some ["u"], some []⟩
  exact ⟨h.2.2.1 rfl, h.1⟩

/-- C10: a Poll that fails only because the configured target is absent
from the listing does not mark the connection stale: the stale flag is
false afterwards (so the next Poll reuses the session and never calls
connect), while list and retrieve failures do set the stale flag. -/
theorem claim_C10_notfound_not_stale (ups : String) (inp : PollInput) (st : Bool) :
    ((pollStep ups inp st).result = .error .targetNotFound →
        (pollStep ups inp st).stale = false ∧
        (∀ inp2 : PollInput, (pollStep ups inp2 (pollStep ups inp st).stale).connectCalls = 0)) ∧
    ((pollStep ups inp false).result = .error .targetNotFound →
        (pollStep ups inp false).stale = false) ∧
    (inp.listRes = none → (st = false ∨ inp.connectOk = true) →
        (pollStep ups inp st).stale = true) ∧
    (∀ names, inp.listRes = some names → ups ∈ names → inp.varsRes = none →
        (st = false ∨ inp.connectOk = true) → (pollStep ups inp st).stale = true) := by
  refine ⟨?_, ?_, ?_, ?_⟩
  · intro hres
    refine ⟨pollStep_notFound_stale hres, ?_⟩
    intro inp2
    rw [pollStep_notFound_stale hres]
    simp [pollStep, pollCore_connectCalls]
  · intro hres
    exact pollStep_notFound_stale hres
  · intro hl hok
    exact (pollStep_of_core
      (fun o => o.result = .error .listFailed ∧ o.stale = true) st hok
      (fun cc => pollCore_listFailed cc hl)).2
  · intro names hl hm hv hok
    exact (pollStep_of_core
      (fun o => o.result = .error .varsFailed ∧ o.stale = true) st hok
      (fun cc => pollCore_varsFailed cc hl hm hv)).2

/-- C10 witness: a stale connector whose reconnect succeeds but whose
target is missing from the listing ends up non-stale. -/
theorem claim_C10_witness :
    (pollStep "u" ⟨true, some ["other"], some []⟩ true).stale = false :=
  ((claim_C10_notfound_not_stale "u" ⟨true, some ["other"], some []⟩ true).1 (by decide)).1

lemma connectGo_chain (okc cancel : ℕ → Bool) :
    ∀ (fuel i b : ℕ), BackoffChain b (connectGo okc cancel fuel i b).waits := by
  intro fuel
  induction fuel with
  | zero => intro i b; simp [connectGo, BackoffChain]
  | succ n ih =>
    intro i b
    unfold connectGo
    by_cases h1 : okc i = true
    · simp [h1, BackoffChain]
    · by_cases h2 : cancel i = true
      · simp [h1, h2, BackoffChain]
      · simp only [h1, h2, Bool.false_eq_true, if_false]
        exact ⟨rfl, ih (i + 1) (min (2 * b) 60)⟩

lemma backoffChain_get {ws : List ℕ} :
    ∀ {b : ℕ}, BackoffChain b ws → ∀ (j : ℕ) (hj : j + 1 < ws.length),
      ws.get ⟨j + 1, hj⟩ = min (2 * ws.get ⟨j, by omega⟩) 60 := by
  induction ws with
  | nil => intro b _ j hj; simp at hj
  | cons w ws ih =>
    intro b h j hj
    obtain ⟨rfl, hch⟩ := h
    cases j with
    | zero =>
      cases ws with
      | nil => simp at hj
      | cons w2 ws2 =>
        simp only [List.get_cons_succ, List.get_cons_zero]
        exact hch.1
    | succ j =>
      simp only [List.get_cons_succ]
      exact ih hch j (by simpa using hj)

lemma backoffChain_le {ws : List ℕ} :
    ∀ {b : ℕ}, b ≤ 60 → BackoffChain b ws → ∀ w ∈ ws, w ≤ 60 := by
  induction ws with
  | nil => intro b _ _ w hw; simp at hw
  | cons w0 ws ih =>
    intro b hb h w hw
    obtain ⟨rfl, hch⟩ := h
    rcases List.mem_cons.mp hw with rfl | hmem
    · exact hb
    · exact ih (min_le_right _ _) hch w hmem

lemma connectGo_allFail (okc cancel : ℕ → Bool)
    (hok : ∀ j, okc j = false) (hcan : ∀ j, cancel j = false) :
    ∀ (fuel i b : ℕ), (connectGo okc cancel fuel i b).attempts = fuel ∧
      (connectGo okc cancel fuel i b).outcome = .fuelExhausted := by
  intro fuel
  induction fuel with
  | zero => intro i b; simp [connectGo]
  | succ n ih =>
    intro i b
    unfold connectGo
    simp only [hok i, hcan i, Bool.false_eq_true, if_false]
    exact ⟨by simp [(ih (i + 1) (min (2 * b) 60)).1], by simp [(ih (i + 1) (min (2 * b) 60)).2]⟩

lemma connectGo_connected_ok (okc cancel : ℕ → Bool) :
    ∀ (fuel i b j : ℕ), (connectGo okc cancel fuel i b).outcome = .connected j →
      okc j = true := by
  intro fuel
  induction fuel with
  | zero => intro i b j h; simp [connectGo] at h
  | succ n ih =>
    intro i b j h
    unfold connectGo at h
    by_cases h1 : okc i = true
    · simp [h1] at h
      obtain ⟨rfl⟩ := h
      exact h1
    · by_cases h2 : cancel i = true
      · simp [h1, h2] at h
      · simp only [h1, h2, Bool.false_eq_true, if_false] at h
        exact ih (i + 1) (min (2 * b) 60) j h

lemma connectGo_cancelled_sig (okc cancel : ℕ → Bool) :
    ∀ (fuel i b j : ℕ), (connectGo okc cancel fuel i b).outcome = .cancelled j →
      cancel j = true ∧ okc j = false := by
  intro fuel
  induction fuel with
  | zero => intro i b j h; simp [connectGo] at h
  | succ n ih =>
    intro i b j h
    unfold connectGo at h
    by_cases h1 : okc i = true
    · simp [h1] at h
    · by_cases h2 : cancel i = true
      · simp [h1, h2] at h
        obtain ⟨rfl⟩ := h
        exact ⟨h2, by simpa using h1⟩
      · simp only [h1, h2, Bool.false_eq_true, if_false] at h
        exact ih (i + 1) (min (2 * b) 60) j h

lemma connectGo_run (okc cancel : ℕ → Bool) :
    ∀ (fuel i b j : ℕ), i ≤ j → j < i + fuel →
      (∀ k, i ≤ k → k < j → okc k = false ∧ cancel k = false) →
      ((okc j = false → cancel j = true →
          (connectGo okc cancel fuel i b).outcome = .cancelled j ∧
          (connectGo okc cancel fuel i b).attempts = j - i + 1 ∧
          (connectGo okc cancel fuel i b).waits.length = j - i) ∧
        (okc j = true →
          (connectGo okc cancel fuel i b).outcome = .connected j ∧
          (connectGo okc cancel fuel i b).attempts = j - i + 1 ∧
          (connectGo okc cancel fuel i b).waits.length = j - i)) := by
  intro fuel
  induction fuel with
  | zero => intro i b j hij hlt _; omega
  | succ n ih =>
    intro i b j hij hlt hpre
    by_cases hji : i = j
    · subst hji
      constructor
      · intro hko hca
        unfold connectGo
        simp [hko, hca]
      · intro hko
        unfold connectGo
        simp [hko]
    · have hilt : i < j := by omega
      have hofail := hpre i le_rfl hilt
      have hrec := ih (i + 1) (min (2 * b) 60) j (by omega) (by omega)
        (fun k hk1 hk2 => hpre k (by omega) hk2)
      constructor
      · intro hko hca
        have h3 := hrec.1 hko hca
        unfold connectGo
        simp only [hofail.1, hofail.2, Bool.false_eq_true, if_false]
        refine ⟨by simp [h3.1], by simp [h3.2.1]; omega, by simp [h3.2.2]; omega⟩
      · intro hko
        have h3 := hrec.2 hko
        unfold connectGo
        simp only [hofail.1, hofail.2, Bool.false_eq_true, if_false]
        refine ⟨by simp [h3.1], by simp [h3.2.1]; omega, by simp [h3.2.2]; omega⟩

/-- C6: the startup connection routine: waits form the 1-second-start,
doubling, 60-second-capped backoff chain (so the first wait is 1 s and
each later wait is min of double the previous and 60); the attempt count
is never internally bounded (with every attempt failing and no
cancellation it performs exactly as many attempts as the run length);
a wait interrupted by the cancellation signal aborts the routine with a
cancellation outcome, a constructor distinct from any connection-failure
value, after exactly those attempts and without sleeping the interrupted
wait; a successful attempt returns the connected outcome. -/
theorem claim_C6_startup_backoff (fuel : ℕ) (okc cancel : ℕ → Bool) :
    BackoffChain 1 (connectNUT fuel okc cancel).waits ∧
    (∀ w ws2, (connectNUT fuel okc cancel).waits = w :: ws2 → w = 1) ∧
    (∀ (j : ℕ) (hj : j + 1 < (connectNUT fuel okc cancel).waits.length),
        (connectNUT fuel okc cancel).waits.get ⟨j + 1, hj⟩
          = min (2 * (connectNUT fuel okc cancel).waits.get ⟨j, by omega⟩) 60) ∧
    (∀ w ∈ (connectNUT fuel okc cancel).waits, w ≤ 60) ∧
    ((∀ j, okc j = false) → (∀ j, cancel j = false) →
        (connectNUT fuel okc cancel).attempts = fuel ∧
        (connectNUT fuel okc cancel).outcome = .fuelExhausted) ∧
    (∀ j, (connectNUT fuel okc cancel).outcome = .connected j → okc j = true) ∧
    (∀ j, (connectNUT fuel okc cancel).outcome = .cancelled j →
        cancel j = true ∧ okc j = false) ∧
    (∀ j, j < fuel → (∀ k, k < j → okc k = false ∧ cancel k = false) →
        okc j = false → cancel j = true →
        (connectNUT fuel okc cancel).outcome = .cancelled j ∧
        (connectNUT fuel okc cancel).attempts = j + 1 ∧
        (connectNUT fuel okc cancel).waits.length = j) ∧
    (∀ j, j < fuel → (∀ k, k < j → okc k = false ∧ cancel k = false) → okc j = true →
        (connectNUT fuel okc cancel).outcome = .connected j ∧
        (connectNUT fuel okc cancel).attempts = j + 1 ∧
        (connectNUT fuel okc cancel).waits.length = j) := by
  have hchain : BackoffChain 1 (connectNUT fuel okc cancel).waits :=
    connectGo_chain okc cancel fuel 0 1
  refine ⟨hchain, ?_, ?_, ?_, ?_, ?_, ?_, ?_, ?_⟩
  · intro w ws2 hw
    rw [hw] at hchain
    exact hchain.1
  · intro j hj
    exact backoffChain_get hchain j hj
  · exact backoffChain_le (by omega) hchain
  · intro h1 h2
    exact connectGo_allFail okc cancel h1 h2 fuel 0 1
  · intro j h
    exact connectGo_connected_ok okc cancel fuel 0 1 j h
  · intro j h
    exact connectGo_cancelled_sig okc cancel fuel 0 1 j h
  · intro j hj hpre hko hca
    have h := (connectGo_run okc cancel fuel 0 1 j (by omega) (by omega)
      (fun k _ hk2 => hpre k hk2)).1 hko hca
    simpa using h
  · intro j hj hpre hko
    have h := (connectGo_run okc cancel fuel 0 1 j (by omega) (by omega)
      (fun k _ hk2 => hpre k hk2)).2 hko
    simpa using h

/-- C6 witness: two failed attempts then a success: waits 1 s then 2 s,
three attempts, connected outcome; and a cancellation during the first
wait yields the cancelled outcome with no wait slept. -/
theorem claim_C6_witness :
    ((connectNUT 4 (fun i => decide (i = 2)) (fun _ => false)).outcome
        = .connected 2 ∧
      (connectNUT 4 (fun i => decide (i = 2)) (fun _ => false)).attempts = 3 ∧
      (connectNUT 4 (fun i => decide (i = 2)) (fun _ => false)).waits.length = 2) ∧
    ((connectNUT 4 (fun _ => false) (fun _ => true)).outcome = .cancelled 0 ∧
      (connectNUT 4 (fun _ => false) (fun _ => true)).attempts = 1 ∧
      (connectNUT 4 (fun _ => false) (fun _ => true)).waits.length = 0) := by
  constructor
  · refine (claim_C6_startup_backoff 4 (fun i => decide (i = 2)) (fun _ => false)).2.2.2.2.2.2.2.2
      2 (by omega) ?_ (by decide)
    intro k hk
    refine ⟨?_, rfl⟩
    simp only [decide_eq_false_iff_not]
    omega
  · refine (claim_C6_startup_backoff 4 (fun _ => false) (fun _ => true)).2.2.2.2.2.2.2.1
      0 (by omega) ?_ rfl rfl
    intro k hk
    omega

lemma pubSeq_cons_true {ok : ℕ → Bool} {w : World} {msg : Message} {rest : List Message}
    (h : ok w.attempted.length = true) :
    pubSeq ok w (msg :: rest)
      = pubSeq ok ⟨w.attempted ++ [msg], w.published ++ [msg], w.pollCalls⟩ rest := by
  simp [pubSeq, pubAttempt, h]

lemma pubSeq_cons_false {ok : ℕ → Bool} {w : World} {msg : Message} {rest : List Message}
    (h : ok w.attempted.length = false) :
    pubSeq ok w (msg :: rest)
      = (⟨w.attempted ++ [msg], w.published, w.pollCalls⟩, false) := by
  simp [pubSeq, pubAttempt, h]

lemma pubSeq_pollCalls (ok : ℕ → Bool) :
    ∀ (ms : List Message) (w : World), (pubSeq ok w ms).1.pollCalls = w.pollCalls := by
  intro ms
  induction ms with
  | nil => intro w; rfl
  | cons m rest ih =>
    intro w
    by_cases h : ok w.attempted.length = true
    · rw [pubSeq_cons_true h]
      exact ih _
    · rw [pubSeq_cons_false (by simpa using h)]

lemma pubSeq_ok (ok : ℕ → Bool) :
    ∀ (ms : List Message) (w : World), (pubSeq ok w ms).2 = true →
      (pubSeq ok w ms).1.attempted = w.attempted ++ ms ∧
      (pubSeq ok w ms).1.published = w.published ++ ms := by
  intro ms
  induction ms with
  | nil => intro w _; simp [pubSeq]
  | cons m rest ih =>
    intro w hall
    by_cases h : ok w.attempted.length = true
    · rw [pubSeq_cons_true h] at hall ⊢
      obtain ⟨h1, h2⟩ := ih _ hall
      constructor
      · rw [h1]; simp
      · rw [h2]; simp
    · rw [pubSeq_cons_false (by simpa using h)] at hall
      simp at hall

lemma pubSeq_fail (ok : ℕ → Bool) :
    ∀ (ms : List Message) (w : World), (pubSeq ok w ms).2 = false →
      ∃ k, k < ms.length ∧
        (pubSeq ok w ms).1.attempted = w.attempted ++ ms.take (k + 1) ∧
        (pubSeq ok w ms).1.published = w.published ++ ms.take k ∧
        ok (w.attempted.length + k) = false ∧
        (∀ j, j < k → ok (w.attempted.length + j) = true) := by
  intro ms
  induction ms with
  | nil => intro w h; simp [pubSeq] at h
  | cons m rest ih =>
    intro w hfail
    by_cases h : ok w.attempted.length = true
    · rw [pubSeq_cons_true h] at hfail ⊢
      obtain ⟨k, hk, h1, h2, h3, h4⟩ := ih _ hfail
      refine ⟨k + 1, by simpa using hk, ?_, ?_, ?_, ?_⟩
      · rw [h1]; simp
      · rw [h2]; simp
      · simpa [Nat.add_assoc, Nat.add_comm 1 k] using h3
      · intro j hj
        cases j with
        | zero => simpa using h
        | succ j =>
          have := h4 j (by omega)
          simpa [Nat.add_assoc, Nat.add_comm 1 j] using this
    · rw [pubSeq_cons_false (by simpa using h)]
      exact ⟨0, by simp, by simp, by simp, by simpa using h, by omega⟩

lemma pubSeq_attempted_ex (ok : ℕ → Bool) (ms : List Message) (w : World) :
    ∃ l, (pubSeq ok w ms).1.attempted = w.attempted ++ l := by
  by_cases h : (pubSeq ok w ms).2 = true
  · exact ⟨ms, (pubSeq_ok ok ms w h).1⟩
  · obtain ⟨k, _, h1, _⟩ := pubSeq_fail ok ms w (by simpa using h)
    exact ⟨ms.take (k + 1), h1⟩

lemma pubSeq_allOk (ok : ℕ → Bool) (hok : ∀ i, ok i = true) :
    ∀ (ms : List Message) (w : World), (pubSeq ok w ms).2 = true := by
  intro ms
  induction ms with
  | nil => intro w; rfl
  | cons m rest ih =>
    intro w
    rw [pubSeq_cons_true (hok _)]
    exact ih _

lemma doPollW_pollCalls (pollRes : ℕ → Except String (List Variable)) (cfg : PublishConfig)
    (ts : String) (ok : ℕ → Bool) (w : World) :
    (doPollW pollRes cfg ts ok w).1.pollCalls = w.pollCalls + 1 := by
  unfold doPollW
  rcases pollRes w.pollCalls with e | vs
  · rfl
  · simp only
    rw [pubSeq_pollCalls]

/-- C4: a cycle whose fetch fails publishes zero messages and returns
the failure, leaving the bus log untouched; a cycle whose fetch succeeds
publishes the message set one at a time, the first publish failure
aborting all remaining publishes of that cycle only, with the already
published prefix kept (never rolled back) and the failure surfaced to
the caller; a failed cycle does not affect the next cycle. -/
theorem claim_C4_cycle_failure_isolation (pollRes : ℕ → Except String (List Variable))
    (cfg : PublishConfig) (ts : String) (ok : ℕ → Bool) (w : World) :
    (∀ e, pollRes w.pollCalls = .error e →
        (doPollW pollRes cfg ts ok w).1.attempted = w.attempted ∧
        (doPollW pollRes cfg ts ok w).1.published = w.published ∧
        (doPollW pollRes cfg ts ok w).2 = .error ("polling NUT: " ++ e)) ∧
    (∀ vs, pollRes w.pollCalls = .ok vs →
        (((doPollW pollRes cfg ts ok w).2 = .ok () →
          (doPollW pollRes cfg ts ok w).1.attempted
            = w.attempted ++ cycleMessages (VarsToMap vs) (Compute (VarsToMap vs)) cfg ts ∧
          (doPollW pollRes cfg ts ok w).1.published
            = w.published ++ cycleMessages (VarsToMap vs) (Compute (VarsToMap vs)) cfg ts) ∧
        (∀ msg, (doPollW pollRes cfg ts ok w).2 = .error msg →
          ∃ k, k < (cycleMessages (VarsToMap vs) (Compute (VarsToMap vs)) cfg ts).length ∧
            (doPollW pollRes cfg ts ok w).1.attempted
              = w.attempted
                  ++ (cycleMessages (VarsToMap vs) (Compute (VarsToMap vs)) cfg ts).take (k + 1) ∧
            (doPollW pollRes cfg ts ok w).1.published
              = w.published
                  ++ (cycleMessages (VarsToMap vs) (Compute (VarsToMap vs)) cfg ts).take k ∧
            ok (w.attempted.length + k) = false ∧
            (∀ j, j < k → ok (w.attempted.length + j) = true)))) ∧
    (∀ e vs, (∀ i, ok i = true) → pollRes w.pollCalls = .error e →
        pollRes (w.pollCalls + 1) = .ok vs →
        (doPollW pollRes cfg ts ok (doPollW pollRes cfg ts ok w).1).1.published
          = w.published ++ cycleMessages (VarsToMap vs) (Compute (VarsToMap vs)) cfg ts ∧
        (doPollW pollRes cfg ts ok (doPollW pollRes cfg ts ok w).1).2 = .ok ()) := by
  refine ⟨?_, ?_, ?_⟩
  · intro e hres
    unfold doPollW
    rw [hres]
    exact ⟨rfl, rfl, rfl⟩
  · intro vs hres
    constructor
    · intro hdone
      unfold doPollW at hdone ⊢
      rw [hres] at hdone ⊢
      simp only at hdone ⊢
      by_cases hp : (pubSeq ok ⟨w.attempted, w.published, w.pollCalls + 1⟩
          (cycleMessages (VarsToMap vs) (Compute (VarsToMap vs)) cfg ts)).2 = true
      · exact pubSeq_ok ok _ _ hp
      · rw [if_neg (by simpa using hp)] at hdone
        cases hdone
    · intro msg hdone
      unfold doPollW at hdone ⊢
      rw [hres] at hdone ⊢
      simp only at hdone ⊢
      by_cases hp : (pubSeq ok ⟨w.attempted, w.published, w.pollCalls + 1⟩
          (cycleMessages (VarsToMap vs) (Compute (VarsToMap vs)) cfg ts)).2 = true
      · rw [if_pos hp] at hdone
        cases hdone
      · exact pubSeq_fail ok _ _ (by simpa using hp)
  · intro e vs hok hres1 hres2
    have hw1 : (doPollW pollRes cfg ts ok w).1 = ⟨w.attempted, w.published, w.pollCalls + 1⟩ := by
      unfold doPollW
      rw [hres1]
    rw [hw1]
    unfold doPollW
    simp only
    rw [hres2]
    simp only
    have hall := pubSeq_allOk ok hok
      (cycleMessages (VarsToMap vs) (Compute (VarsToMap vs)) cfg ts)
      ⟨w.attempted, w.published, w.pollCalls + 1 + 1⟩
    constructor
    · exact (pubSeq_ok ok _ _ hall).2
    · rw [if_pos hall]

/-- C4 witness: a concrete failed fetch publishes nothing and returns
the wrapped failure. -/
theorem claim_C4_witness :
    (doPollW (fun _ => .error "down") ⟨"ups", "u", true⟩ "T" (fun _ => true)
        ⟨[], [], 0⟩).1.published = [] ∧
    (doPollW (fun _ => .error "down") ⟨"ups", "u", true⟩ "T" (fun _ => true)
        ⟨[], [], 0⟩).2 = .error ("polling NUT: " ++ "down") := by
  have h := (claim_C4_cycle_failure_isolation (fun _ => .error "down") ⟨"ups", "u", true⟩ "T"
    (fun _ => true) ⟨[], [], 0⟩).1 "down" rfl
  exact ⟨h.2.1, h.2.2⟩

lemma doPollW_fetchFail {pollRes : ℕ → Except String (List Variable)} {cfg : PublishConfig}
    {ts : String} {ok : ℕ → Bool} {w : World} {e : String}
    (hres : pollRes w.pollCalls = .error e) :
    (doPollW pollRes cfg ts ok w).1.attempted = w.attempted ∧
    (doPollW pollRes cfg ts ok w).1.published = w.published ∧
    (doPollW pollRes cfg ts ok w).2 = .error ("polling NUT: " ++ e) := by
  unfold doPollW
  rw [hres]
  exact ⟨rfl, rfl, rfl⟩

lemma doPollW_ok_spec {pollRes : ℕ → Except String (List Variable)} {cfg : PublishConfig}
    {ts : String} {ok : ℕ → Bool} {w : World} {vs : List Variable}
    (hres : pollRes w.pollCalls = .ok vs)
    (hdone : (doPollW pollRes cfg ts ok w).2 = .ok ()) :
    (doPollW pollRes cfg ts ok w).1.attempted
      = w.attempted ++ cycleMessages (VarsToMap vs) (Compute (VarsToMap vs)) cfg ts ∧
    (doPollW pollRes cfg ts ok w).1.published
      = w.published ++ cycleMessages (VarsToMap vs) (Compute (VarsToMap vs)) cfg ts := by
  unfold doPollW at hdone ⊢
  rw [hres] at hdone ⊢
  simp only at hdone ⊢
  by_cases hp : (pubSeq ok ⟨w.attempted, w.published, w.pollCalls + 1⟩
      (cycleMessages (VarsToMap vs) (Compute (VarsToMap vs)) cfg ts)).2 = true
  · exact pubSeq_ok ok _ _ hp
  · rw [if_neg (by simpa using hp)] at hdone
    cases hdone

lemma doPollW_attempted_ex (pollRes : ℕ → Except String (List Variable)) (cfg : PublishConfig)
    (ts : String) (ok : ℕ → Bool) (w : World) :
    ∃ l, (doPollW pollRes cfg ts ok w).1.attempted = w.attempted ++ l := by
  unfold doPollW
  rcases pollRes w.pollCalls with e | vs
  · exact ⟨[], by simp⟩
  · simp only
    exact pubSeq_attempted_ex ok _ _

/-- C1: after the loop stops, exactly one more poll cycle is attempted;
the offline announcement (retained, on the combined-state topic) is
attempted exactly once as the final step regardless of the cycle's
outcome; and when the final cycle succeeds, its combined state message
sits strictly before the offline announcement in the delivered log. -/
theorem claim_C1_shutdown_ordering (pollRes : ℕ → Except String (List Variable))
    (cfg : PublishConfig) (tsC tsO : String) (ok : ℕ → Bool) (w : World) :
    (shutdownSeq pollRes cfg tsC tsO ok w).pollCalls = w.pollCalls + 1 ∧
    (∃ cyc, (shutdownSeq pollRes cfg tsC tsO ok w).attempted
        = w.attempted ++ cyc ++ [offMessage cfg tsO]) ∧
    (offMessage cfg tsO).retained = true ∧
    (offMessage cfg tsO).topic = StateTopic cfg.root cfg.upsName ∧
    (∀ vs, pollRes w.pollCalls = .ok vs → (doPollW pollRes cfg tsC ok w).2 = .ok () →
        ∃ pre offTail,
          (shutdownSeq pollRes cfg tsC tsO ok w).published
            = w.published ++ pre
                ++ [stateMessage (VarsToMap vs) (Compute (VarsToMap vs)) cfg tsC] ++ offTail ∧
          (offTail = [] ∨ offTail = [offMessage cfg tsO]) ∧
          (shutdownSeq pollRes cfg tsC tsO ok w).attempted
            = w.attempted ++ pre
                ++ [stateMessage (VarsToMap vs) (Compute (VarsToMap vs)) cfg tsC]
                ++ [offMessage cfg tsO]) := by
  refine ⟨?_, ?_, rfl, rfl, ?_⟩
  · show (pubAttempt ok (doPollW pollRes cfg tsC ok w).1 (offMessage cfg tsO)).1.pollCalls
      = w.pollCalls + 1
    simp only [pubAttempt]
    exact doPollW_pollCalls pollRes cfg tsC ok w
  · obtain ⟨l, hl⟩ := doPollW_attempted_ex pollRes cfg tsC ok w
    refine ⟨l, ?_⟩
    show (pubAttempt ok (doPollW pollRes cfg tsC ok w).1 (offMessage cfg tsO)).1.attempted = _
    simp only [pubAttempt]
    rw [hl]
  · intro vs hres hdone
    obtain ⟨ha, hp⟩ := doPollW_ok_spec hres hdone
    refine ⟨(VarsToMap vs).map (fun kv => ⟨varTopic cfg kv.1, kv.2, cfg.retained⟩)
        ++ (AsTopicMap (Compute (VarsToMap vs))).map
            (fun kv => ⟨computedTopic cfg kv.1, kv.2, cfg.retained⟩),
      if ok (doPollW pollRes cfg tsC ok w).1.attempted.length = true
        then [offMessage cfg tsO] else [], ?_, ?_, ?_⟩
    · show (pubAttempt ok (doPollW pollRes cfg tsC ok w).1 (offMessage cfg tsO)).1.published = _
      simp only [pubAttempt]
      by_cases hoff : ok (doPollW pollRes cfg tsC ok w).1.attempted.length = true
      · rw [if_pos hoff, if_pos hoff, hp]
        simp [cycleMessages, List.append_assoc]
      · rw [if_neg hoff, if_neg hoff, hp]
        simp [cycleMessages, List.append_assoc]
    · by_cases hoff : ok (doPollW pollRes cfg tsC ok w).1.attempted.length = true
      · rw [if_pos hoff]
        exact Or.inr rfl
      · rw [if_neg hoff]
        exact Or.inl rfl
    · show (pubAttempt ok (doPollW pollRes cfg tsC ok w).1 (offMessage cfg tsO)).1.attempted = _
      simp only [pubAttempt]
      rw [ha]
      simp [cycleMessages, List.append_assoc]

/-- C1 witness: with a healthy bus and source, the delivered shutdown
log decomposes as cycle messages ending in the state message, followed
by the offline tail. -/
theorem claim_C1_witness :
    ∃ pre offTail,
      (shutdownSeq (fun _ => .ok [⟨"ups.status", "OL"⟩]) ⟨"ups", "u", true⟩ "T1" "T2"
          (fun _ => true) ⟨[], [], 0⟩).published
        = pre ++ [stateMessage (VarsToMap [⟨"ups.status", "OL"⟩])
            (Compute (VarsToMap [⟨"ups.status", "OL"⟩])) ⟨"ups", "u", true⟩ "T1"] ++ offTail := by
  have hdone : (doPollW (fun _ => .ok [⟨"ups.status", "OL"⟩]) ⟨"ups", "u", true⟩ "T1"
      (fun _ => true) ⟨[], [], 0⟩).2 = .ok () := by
    unfold doPollW
    simp only
    rw [if_pos (pubSeq_allOk _ (fun _ => rfl) _ _)]
  obtain ⟨pre, offTail, hpub, -, -⟩ :=
    (claim_C1_shutdown_ordering (fun _ => .ok [⟨"ups.status", "OL"⟩]) ⟨"ups", "u", true⟩
      "T1" "T2" (fun _ => true) ⟨[], [], 0⟩).2.2.2.2 [⟨"ups.status", "OL"⟩] rfl hdone
  exact ⟨pre, offTail, by simpa using hpub⟩

lemma digitChar_isDigit : ∀ k < 10, isDigitCh (digitChar k) = true := by decide

lemma digitChar_ne_dot : ∀ k < 10, digitChar k ≠ '.' := by decide

lemma digitChar_eq_zero_iff : ∀ k < 10, (digitChar k = '0' ↔ k = 0) := by decide

lemma digitVal_digitChar : ∀ k < 10, digitVal (digitChar k) = k := by decide

lemma natDigitsRev_ne_nil (n : ℕ) : natDigitsRev n ≠ [] := by
  rw [natDigitsRev_eq]
  split <;> simp

lemma natDigitsRev_mem :
    ∀ (n : ℕ), ∀ c ∈ natDigitsRev n, ∃ k, k < 10 ∧ c = digitChar k := by
  intro n
  induction n using Nat.strong_induction_on with
  | _ n ih =>
    intro c hc
    rw [natDigitsRev_eq] at hc
    by_cases h : n < 10
    · rw [if_pos h] at hc
      simp at hc
      exact ⟨n, h, hc⟩
    · rw [if_neg h] at hc
      rcases List.mem_cons.mp hc with rfl | hmem
      · exact ⟨n % 10, Nat.mod_lt _ (by omega), rfl⟩
      · exact ih (n / 10) (Nat.div_lt_self (by omega) (by omega)) c hmem

lemma natDigitsRev_head (n : ℕ) : (natDigitsRev n).head? = some (digitChar (n % 10)) := by
  rw [natDigitsRev_eq]
  by_cases h : n < 10
  · rw [if_pos h]
    simp [Nat.mod_eq_of_lt h]
  · rw [if_neg h]
    rfl

lemma natDigitsRev_foldr :
    ∀ (n : ℕ), (natDigitsRev n).foldr (fun c a => 10 * a + digitVal c) 0 = n := by
  intro n
  induction n using Nat.strong_induction_on with
  | _ n ih =>
    rw [natDigitsRev_eq]
    by_cases h : n < 10
    · rw [if_pos h]
      simp [digitVal_digitChar n h]
    · rw [if_neg h]
      simp only [List.foldr_cons]
      rw [ih (n / 10) (Nat.div_lt_self (by omega) (by omega))]
      rw [digitVal_digitChar (n % 10) (Nat.mod_lt _ (by omega))]
      omega

lemma digitsToNat_msb (n : ℕ) : digitsToNat (natDigitsMSB n) = n := by
  unfold digitsToNat natDigitsMSB
  rw [List.foldl_reverse]
  exact natDigitsRev_foldr n

lemma natDigitsRev_length_le :
    ∀ (d n : ℕ), 0 < d → n < 10 ^ d → (natDigitsRev n).length ≤ d := by
  intro d
  induction d with
  | zero => omega
  | succ d ihd =>
    intro n _ hn
    rw [natDigitsRev_eq]
    by_cases h : n < 10
    · rw [if_pos h]
      simp
    · rw [if_neg h]
      have hd0 : d ≠ 0 := by
        rintro rfl
        rw [pow_one] at hn
        omega
      have hdiv : n / 10 < 10 ^ d := by
        rw [Nat.div_lt_iff_lt_mul (by omega)]
        calc n < 10 ^ (d + 1) := hn
        _ = 10 ^ d * 10 := by rw [pow_succ]
      have := ihd (n / 10) (by omega) hdiv
      simp only [List.length_cons]
      omega

lemma natDigitsMSB_ne_nil (n : ℕ) : natDigitsMSB n ≠ [] := by
  unfold natDigitsMSB
  simp [natDigitsRev_ne_nil n]

lemma natDigitsMSB_mem (n : ℕ) : ∀ c ∈ natDigitsMSB n, ∃ k, k < 10 ∧ c = digitChar k := by
  intro c hc
  rw [natDigitsMSB, List.mem_reverse] at hc
  exact natDigitsRev_mem n c hc

lemma natDigitsMSB_all_digit (n : ℕ) : ∀ c ∈ natDigitsMSB n, isDigitCh c = true := by
  intro c hc
  obtain ⟨k, hk, rfl⟩ := natDigitsMSB_mem n c hc
  exact digitChar_isDigit k hk

lemma not_dot_mem_msb (n : ℕ) : '.' ∉ natDigitsMSB n := by
  intro hmem
  obtain ⟨k, hk, hc⟩ := natDigitsMSB_mem n '.' hmem
  exact digitChar_ne_dot k hk hc.symm

lemma natDigitsMSB_getLast (n : ℕ) :
    (natDigitsMSB n).getLast? = some (digitChar (n % 10)) := by
  unfold natDigitsMSB
  rw [List.getLast?_reverse]
  exact natDigitsRev_head n

lemma digitsToNat_replicate_zero (k : ℕ) (l : List Char) :
    digitsToNat (List.replicate k '0' ++ l) = digitsToNat l := by
  unfold digitsToNat
  rw [List.foldl_append]
  have : List.foldl (fun a c => 10 * a + digitVal c) 0 (List.replicate k '0') = 0 := by
    induction k with
    | zero => rfl
    | succ k ihk =>
      rw [List.replicate_succ, List.foldl_cons]
      simpa [digitVal] using ihk
  rw [this]

lemma fracChars_ne_nil (d m : ℕ) : fracChars d m ≠ [] := by
  unfold fracChars
  simp [natDigitsMSB_ne_nil m]

lemma fracChars_all_digit (d m : ℕ) : ∀ c ∈ fracChars d m, isDigitCh c = true := by
  intro c hc
  unfold fracChars at hc
  rcases List.mem_append.mp hc with hrep | hmsb
  · rw [List.eq_of_mem_replicate hrep]
    decide
  · exact natDigitsMSB_all_digit m c hmsb

lemma fracChars_length {d m : ℕ} (hd : 0 < d) (hm : m < 10 ^ d) :
    (fracChars d m).length = d := by
  unfold fracChars
  have hle : (natDigitsMSB m).length ≤ d := by
    unfold natDigitsMSB
    simpa using natDigitsRev_length_le d m hd hm
  simp [List.length_append, List.length_replicate]
  omega

lemma fracChars_getLast (d m : ℕ) :
    (fracChars d m).getLast? = some (digitChar (m % 10)) := by
  unfold fracChars
  rw [List.getLast?_append, natDigitsMSB_getLast]
  rfl

lemma fracChars_val (d m : ℕ) : digitsToNat (fracChars d m) = m := by
  unfold fracChars
  rw [digitsToNat_replicate_zero, digitsToNat_msb]

lemma takeDigits_all {l : List Char} (h : ∀ c ∈ l, isDigitCh c = true) :
    takeDigits l = (l, []) := by
  induction l with
  | nil => rfl
  | cons c t iht =>
    unfold takeDigits
    rw [if_pos (h c (List.mem_cons_self c t))]
    rw [iht (fun x hx => h x (List.mem_cons_of_mem c hx))]

lemma takeDigits_append {xs : List Char} {y : Char} {ys : List Char}
    (hxs : ∀ c ∈ xs, isDigitCh c = true) (hy : isDigitCh y = false) :
    takeDigits (xs ++ y :: ys) = (xs, y :: ys) := by
  induction xs with
  | nil =>
    unfold takeDigits
    simp [hy]
  | cons x xs ihx =>
    rw [List.cons_append]
    unfold takeDigits
    rw [if_pos (hxs x (List.mem_cons_self x xs))]
    rw [ihx (fun c hc => hxs c (List.mem_cons_of_mem x hc))]

lemma isDigitCh_ne_plus {c : Char} (h : isDigitCh c = true) : c ≠ '+' := by
  rintro rfl
  exact absurd h (by decide)

lemma isDigitCh_ne_minus {c : Char} (h : isDigitCh c = true) : c ≠ '-' := by
  rintro rfl
  exact absurd h (by decide)

lemma parseFloatChars_not_sign {c : Char} {t : List Char} (h1 : c ≠ '+') (h2 : c ≠ '-') :
    parseFloatChars (c :: t) = parseUnsigned (c :: t) := by
  simp [parseFloatChars, h1, h2]

lemma parseFloatChars_minus (t : List Char) :
    parseFloatChars ('-' :: t) = Option.map (fun x => -x) (parseUnsigned t) := by
  simp [parseFloatChars]

lemma mantVal_nofrac (ip : List Char) : mantVal ip [] = (digitsToNat ip : ℚ) := by
  unfold mantVal
  norm_num [digitsToNat]

lemma parseUnsigned_digits {cs : List Char} (h : ∀ c ∈ cs, isDigitCh c = true)
    (hne : cs ≠ []) : parseUnsigned cs = some ((digitsToNat cs : ℚ)) := by
  unfold parseUnsigned
  rw [takeDigits_all h]
  show afterInt cs [] = some ((digitsToNat cs : ℚ))
  simp only [afterInt]
  rw [if_neg hne, mantVal_nofrac]

lemma parseUnsigned_frac {ip fp : List Char} (hip : ∀ c ∈ ip, isDigitCh c = true)
    (hipne : ip ≠ []) (hfp : ∀ c ∈ fp, isDigitCh c = true) :
    parseUnsigned (ip ++ '.' :: fp) = some (mantVal ip fp) := by
  unfold parseUnsigned
  rw [takeDigits_append hip (by decide)]
  show afterInt ip ('.' :: fp) = some (mantVal ip fp)
  simp only [afterInt, takeDigits_all hfp, if_pos]
  simp [hipne, finishNum]

lemma den_dvd_pow10 {q : ℚ} (hq : TermDec q) : q.den ∣ 10 ^ decExp q := by
  obtain ⟨a, ha⟩ : ∃ a, pFactor 2 q.den = a := ⟨_, rfl⟩
  obtain ⟨b, hb⟩ : ∃ b, pFactor 5 q.den = b := ⟨_, rfl⟩
  have h : q.den = 2 ^ a * 5 ^ b := by rw [← ha, ← hb]; exact hq
  have hde : decExp q = max a b := by unfold decExp; rw [ha, hb]
  rw [h, hde]
  refine ⟨2 ^ (max a b - a) * 5 ^ (max a b - b), ?_⟩
  rw [show (10 : ℕ) = 2 * 5 from rfl, mul_pow]
  calc 2 ^ max a b * 5 ^ max a b
      = 2 ^ (a + (max a b - a)) * 5 ^ (b + (max a b - b)) := by
        rw [show a + (max a b - a) = max a b from by omega,
          show b + (max a b - b) = max a b from by omega]
  _ = 2 ^ a * 5 ^ b * (2 ^ (max a b - a) * 5 ^ (max a b - b)) := by
      rw [pow_add, pow_add]
      ring

lemma den_mul_scale {q : ℚ} (hq : TermDec q) :
    (10 ^ decExp q / q.den) * q.den = 10 ^ decExp q :=
  Nat.div_mul_cancel (den_dvd_pow10 hq)

lemma scale_ne_zero {q : ℚ} (hq : TermDec q) : 10 ^ decExp q / q.den ≠ 0 := by
  intro h0
  have := den_mul_scale hq
  rw [h0] at this
  simp at this
  exact absurd this (by positivity)

lemma scaledInt_div {q : ℚ} (hq : TermDec q) :
    q = (scaledInt q : ℚ) / 10 ^ decExp q := by
  have htne : ((10 ^ decExp q / q.den : ℕ) : ℚ) ≠ 0 :=
    Nat.cast_ne_zero.mpr (scale_ne_zero hq)
  have hcast : ((10 : ℚ)) ^ decExp q
      = ((10 ^ decExp q / q.den : ℕ) : ℚ) * (q.den : ℚ) := by
    have h1 := congrArg (fun x : ℕ => (x : ℚ)) (den_mul_scale hq)
    push_cast at h1
    exact h1.symm
  rw [show ((scaledInt q : ℤ) : ℚ)
      = (q.num : ℚ) * ((10 ^ decExp q / q.den : ℕ) : ℚ) from by
    unfold scaledInt
    rw [Int.cast_mul, Int.cast_natCast]]
  rw [hcast, mul_comm ((10 ^ decExp q / q.den : ℕ) : ℚ) ((q.den : ℚ)),
    mul_div_mul_right _ _ htne, Rat.num_div_den]

lemma scaledInt_not_ten_dvd {q : ℚ} (hq : TermDec q) (hd : 1 ≤ decExp q) :
    ¬ ((10 : ℕ) ∣ (scaledInt q).natAbs) := by
  intro hdvd
  obtain ⟨a, ha⟩ : ∃ a, pFactor 2 q.den = a := ⟨_, rfl⟩
  obtain ⟨b, hb⟩ : ∃ b, pFactor 5 q.den = b := ⟨_, rfl⟩
  have h : q.den = 2 ^ a * 5 ^ b := by rw [← ha, ← hb]; exact hq
  have hde : decExp q = max a b := by unfold decExp; rw [ha, hb]
  unfold scaledInt at hdvd
  rw [Int.natAbs_mul, Int.natAbs_ofNat] at hdvd
  have hred := q.reduced
  rw [Nat.Coprime] at hred
  rcases le_total b a with hba | hab
  · have ha1 : 1 ≤ a := by rw [hde, max_eq_left hba] at hd; omega
    have hsc : 10 ^ decExp q / q.den = 5 ^ (a - b) := by
      have hmul : q.den * 5 ^ (a - b) = 10 ^ decExp q := by
        rw [h, hde, max_eq_left hba, show (10 : ℕ) = 2 * 5 from rfl, mul_pow]
        calc 2 ^ a * 5 ^ b * 5 ^ (a - b) = 2 ^ a * (5 ^ b * 5 ^ (a - b)) := by ring
        _ = 2 ^ a * 5 ^ a := by
            rw [← pow_add, show b + (a - b) = a from by omega]
      rw [← hmul, Nat.mul_div_cancel_left _ (Nat.pos_of_ne_zero q.den_nz)]
    rw [hsc] at hdvd
    have h2n : (2 : ℕ) ∣ q.num.natAbs :=
      (Nat.Coprime.pow_right _ (by decide)).dvd_of_dvd_mul_right
        (dvd_trans ⟨5, rfl⟩ hdvd)
    have h2d : (2 : ℕ) ∣ q.den := by
      rw [h]
      exact Dvd.dvd.mul_right (dvd_pow_self 2 (by omega)) _
    have hgcd := Nat.dvd_gcd h2n h2d
    rw [hred] at hgcd
    exact absurd hgcd (by decide)
  · have hb1 : 1 ≤ b := by rw [hde, max_eq_right hab] at hd; omega
    have hsc : 10 ^ decExp q / q.den = 2 ^ (b - a) := by
      have hmul : q.den * 2 ^ (b - a) = 10 ^ decExp q := by
        rw [h, hde, max_eq_right hab, show (10 : ℕ) = 2 * 5 from rfl, mul_pow]
        calc 2 ^ a * 5 ^ b * 2 ^ (b - a) = 2 ^ a * 2 ^ (b - a) * 5 ^ b := by ring
        _ = 2 ^ b * 5 ^ b := by
            rw [← pow_add, show a + (b - a) = b from by omega]
      rw [← hmul, Nat.mul_div_cancel_left _ (Nat.pos_of_ne_zero q.den_nz)]
    rw [hsc] at hdvd
    have h5n : (5 : ℕ) ∣ q.num.natAbs :=
      (Nat.Coprime.pow_right _ (by decide)).dvd_of_dvd_mul_right
        (dvd_trans ⟨2, rfl⟩ hdvd)
    have h5d : (5 : ℕ) ∣ q.den := by
      rw [h]
      exact Dvd.dvd.mul_left (dvd_pow_self 5 (by omega)) _
    have hgcd := Nat.dvd_gcd h5n h5d
    rw [hred] at hgcd
    exact absurd hgcd (by decide)

lemma floatChars_zero_width {q : ℚ} (hq : TermDec q) (hd : decExp q = 0) :
    floatChars q
      = (if scaledInt q < 0 then ['-'] else []) ++ natDigitsMSB (scaledInt q).natAbs := by
  have hq' : q.den = 2 ^ pFactor 2 q.den * 5 ^ pFactor 5 q.den := hq
  show floatChars q = _
  unfold floatChars
  rw [if_pos hq']
  show (if decExp q = 0 then _ else _) = _
  rw [if_pos hd]

lemma floatChars_pos_width {q : ℚ} (hq : TermDec q) (hd : decExp q ≠ 0) :
    floatChars q
      = (if scaledInt q < 0 then ['-'] else [])
        ++ natDigitsMSB ((scaledInt q).natAbs / 10 ^ decExp q)
        ++ '.' :: fracChars (decExp q) ((scaledInt q).natAbs % 10 ^ decExp q) := by
  have hq' : q.den = 2 ^ pFactor 2 q.den * 5 ^ pFactor 5 q.den := hq
  show floatChars q = _
  unfold floatChars
  rw [if_pos hq']
  show (if decExp q = 0 then _ else _) = _
  rw [if_neg hd]

lemma termDec_of_den_one {q : ℚ} (hden : q.den = 1) : TermDec q := by
  unfold TermDec
  rw [hden]
  decide

lemma decExp_of_den_one {q : ℚ} (hden : q.den = 1) : decExp q = 0 := by
  unfold decExp
  rw [hden]
  decide

lemma formatFloat_data (q : ℚ) : (formatFloat q).data = floatChars q := rfl

lemma formatFloat_int_no_dot {q : ℚ} (hden : q.den = 1) :
    '.' ∉ (formatFloat q).data := by
  rw [formatFloat_data,
    floatChars_zero_width (termDec_of_den_one hden) (decExp_of_den_one hden)]
  intro hmem
  rcases List.mem_append.mp hmem with hsgn | hmsb
  · by_cases hneg : scaledInt q < 0
    · rw [if_pos hneg] at hsgn
      simp at hsgn
    · rw [if_neg hneg] at hsgn
      simp at hsgn
  · exact not_dot_mem_msb _ hmsb

lemma formatFloat_no_trailing_zero {q : ℚ} (hq : TermDec q)
    (hdot : '.' ∈ (formatFloat q).data) :
    (formatFloat q).data.getLast? ≠ some '0' := by
  rw [formatFloat_data] at hdot ⊢
  by_cases hd : decExp q = 0
  · exfalso
    rw [floatChars_zero_width hq hd] at hdot
    rcases List.mem_append.mp hdot with hsgn | hmsb
    · by_cases hneg : scaledInt q < 0
      · rw [if_pos hneg] at hsgn
        simp at hsgn
      · rw [if_neg hneg] at hsgn
        simp at hsgn
    · exact not_dot_mem_msb _ hmsb
  · rw [floatChars_pos_width hq hd]
    rw [List.append_assoc, List.getLast?_append, List.getLast?_append]
    have hfrac : (fracChars (decExp q) ((scaledInt q).natAbs % 10 ^ decExp q)).getLast?
        = some (digitChar ((scaledInt q).natAbs % 10)) := by
      rw [fracChars_getLast]
      congr 1
      congr 1
      exact Nat.mod_mod_of_dvd _ (dvd_pow_self 10 hd)
    have hlast : ('.' :: fracChars (decExp q) ((scaledInt q).natAbs % 10 ^ decExp q)).getLast?
        = some (digitChar ((scaledInt q).natAbs % 10)) := by
      rw [show ('.' :: fracChars (decExp q) ((scaledInt q).natAbs % 10 ^ decExp q))
          = ['.'] ++ fracChars (decExp q) ((scaledInt q).natAbs % 10 ^ decExp q) from rfl]
      rw [List.getLast?_append, hfrac]
      rfl
    rw [hlast]
    simp only [Option.or_some]
    intro hcontra
    have hne : (scaledInt q).natAbs % 10 ≠ 0 := by
      intro h0
      exact scaledInt_not_ten_dvd hq (by omega)
        (Nat.dvd_iff_mod_eq_zero.mpr h0)
    have hlt : (scaledInt q).natAbs % 10 < 10 := Nat.mod_lt _ (by omega)
    have := (digitChar_eq_zero_iff _ hlt).mp (by injection hcontra)
    exact hne this

lemma mantVal_split {d intN fracN : ℕ} (hd : 0 < d) (hfrac : fracN < 10 ^ d) :
    mantVal (natDigitsMSB intN) (fracChars d fracN)
      = ((10 ^ d * intN + fracN : ℕ) : ℚ) / 10 ^ d := by
  unfold mantVal
  rw [digitsToNat_msb, fracChars_val, fracChars_length hd hfrac]
  have h10 : ((10 : ℚ)) ^ d ≠ 0 := by positivity
  push_cast
  field_simp
  ring

lemma parseUnsigned_msb (n : ℕ) : parseUnsigned (natDigitsMSB n) = some ((n : ℚ)) := by
  rw [parseUnsigned_digits (natDigitsMSB_all_digit n) (natDigitsMSB_ne_nil n),
    digitsToNat_msb]

lemma parseFloatChars_msb_append (n : ℕ) (rest : List Char) :
    parseFloatChars (natDigitsMSB n ++ rest) = parseUnsigned (natDigitsMSB n ++ rest) := by
  rcases hmsb : natDigitsMSB n with _ | ⟨c, t⟩
  · exact absurd hmsb (natDigitsMSB_ne_nil n)
  · have hc : isDigitCh c = true := by
      apply natDigitsMSB_all_digit n
      rw [hmsb]
      exact List.mem_cons_self c t
    rw [List.cons_append]
    exact parseFloatChars_not_sign (isDigitCh_ne_plus hc) (isDigitCh_ne_minus hc)

lemma parseFloatChars_msb (n : ℕ) :
    parseFloatChars (natDigitsMSB n) = some ((n : ℚ)) := by
  have h := parseFloatChars_msb_append n []
  rw [List.append_nil] at h
  rw [h, parseUnsigned_msb]

lemma natAbs_cast_abs (n : ℤ) : ((n.natAbs : ℕ) : ℚ) = |(n : ℚ)| := by
  simp [Int.cast_natAbs]

lemma formatFloat_roundtrip {q : ℚ} (hq : TermDec q) :
    parseFloat (formatFloat q) = some q := by
  unfold parseFloat
  rw [formatFloat_data]
  have hqeq := scaledInt_div hq
  have hval := natAbs_cast_abs (scaledInt q)
  by_cases hd : decExp q = 0
  · have hq0 : ((scaledInt q : ℤ) : ℚ) = q := by
      conv_rhs => rw [hqeq]
      rw [hd, pow_zero, div_one]
    rw [floatChars_zero_width hq hd]
    by_cases hneg : scaledInt q < 0
    · rw [if_pos hneg]
      rw [show ('-' :: []) ++ natDigitsMSB (scaledInt q).natAbs
          = '-' :: natDigitsMSB (scaledInt q).natAbs from rfl]
      rw [parseFloatChars_minus, parseUnsigned_msb]
      simp only [Option.map_some']
      congr 1
      rw [hval, abs_of_neg (by exact_mod_cast hneg), neg_neg]
      exact hq0
    · rw [if_neg hneg]
      rw [List.nil_append]
      rw [parseFloatChars_msb]
      congr 1
      rw [hval, abs_of_nonneg (by exact_mod_cast not_lt.mp hneg)]
      exact hq0
  · rw [floatChars_pos_width hq hd]
    have hfraclt : (scaledInt q).natAbs % 10 ^ decExp q < 10 ^ decExp q :=
      Nat.mod_lt _ (by positivity)
    have hu : parseUnsigned (natDigitsMSB ((scaledInt q).natAbs / 10 ^ decExp q)
          ++ '.' :: fracChars (decExp q) ((scaledInt q).natAbs % 10 ^ decExp q))
        = some ((((scaledInt q).natAbs : ℕ) : ℚ) / 10 ^ decExp q) := by
      rw [parseUnsigned_frac (natDigitsMSB_all_digit _) (natDigitsMSB_ne_nil _)
        (fracChars_all_digit _ _)]
      congr 1
      rw [mantVal_split (by omega) hfraclt]
      congr 1
      exact_mod_cast Nat.div_add_mod (scaledInt q).natAbs (10 ^ decExp q)
    by_cases hneg : scaledInt q < 0
    · rw [if_pos hneg]
      rw [show (['-'] ++ natDigitsMSB ((scaledInt q).natAbs / 10 ^ decExp q))
            ++ '.' :: fracChars (decExp q) ((scaledInt q).natAbs % 10 ^ decExp q)
          = '-' :: (natDigitsMSB ((scaledInt q).natAbs / 10 ^ decExp q)
            ++ '.' :: fracChars (decExp q) ((scaledInt q).natAbs % 10 ^ decExp q)) from rfl]
      rw [parseFloatChars_minus, hu]
      simp only [Option.map_some']
      congr 1
      rw [hval, abs_of_neg (by exact_mod_cast hneg), neg_div, neg_neg]
      exact hqeq.symm
    · rw [if_neg hneg]
      rw [List.nil_append]
      rw [parseFloatChars_msb_append, hu]
      congr 1
      rw [hval, abs_of_nonneg (by exact_mod_cast not_lt.mp hneg)]
      exact hqeq.symm

/-- C9: AsTopicMap always returns exactly 7 entries whose keys are the
canonical metric names in order; booleans render as the literal strings
true/false; float fields render in the shortest exact decimal form:
integers take no decimal point, a rendered fraction never ends in a
zero digit, the rendering parses back to the exact value, and 72 renders
as the string 72 (TermDec captures exactly the values a float64 can
hold: denominators that are products of twos and fives). -/
theorem claim_C9_topic_map (m : Metrics) :
    (AsTopicMap m).map (fun kv => kv.1)
      = ["load_watts", "battery_runtime_mins", "battery_runtime_hours", "on_battery",
         "low_battery", "status_display", "input_voltage_deviation_pct"] ∧
    (AsTopicMap m).length = 7 ∧
    List.lookup "on_battery" (AsTopicMap m) = some (if m.OnBattery then "true" else "false") ∧
    List.lookup "low_battery" (AsTopicMap m) = some (if m.LowBattery then "true" else "false") ∧
    List.lookup "load_watts" (AsTopicMap m) = some (formatFloat m.LoadWatts) ∧
    (∀ q : ℚ, q.den = 1 → '.' ∉ (formatFloat q).data) ∧
    (∀ q : ℚ, TermDec q → '.' ∈ (formatFloat q).data →
        (formatFloat q).data.getLast? ≠ some '0') ∧
    (∀ q : ℚ, TermDec q → parseFloat (formatFloat q) = some q) ∧
    formatFloat 72 = "72" ∧
    formatFloat (mkRat 137 100) = "1.37" := by
  refine ⟨rfl, rfl, rfl, rfl, rfl, ?_, ?_, ?_, by decide, by decide⟩
  · intro q hq
    exact formatFloat_int_no_dot hq
  · intro q hq hdot
    exact formatFloat_no_trailing_zero hq hdot
  · intro q hq
    exact formatFloat_roundtrip hq

/-- C9 witness: the float rendering properties exercised at 1.37 (a
non-integer float64 value) and at the integer 5. -/
theorem claim_C9_witness :
    parseFloat (formatFloat (mkRat 137 100)) = some (mkRat 137 100) ∧
    '.' ∉ (formatFloat (5 : ℚ)).data ∧
    (formatFloat (mkRat 137 100)).data.getLast? ≠ some '0' := by
  obtain ⟨-, -, -, -, -, hnodot, htrail, hrt, -, -⟩ := claim_C9_topic_map (Compute [])
  exact ⟨hrt _ (by decide), hnodot 5 (by decide), htrail _ (by decide) (by decide)⟩

end UpsMqtt
